import Mathlib

/-!
# Polymer: importing a clast AST as an MLIR module (`ConvertFromOpenScop.cc`)

A shallow embedding of `tools/polymer/lib/Target/OpenScop/ConvertFromOpenScop.cc`:
the `AffineExprBuilder`, the statement body reader and the `Importer`, followed
by theorems about them.

Conventions of the embedding.

* A `LogicalResult`-returning member function becomes a function into
  `Option (LogicalResult × state)`.  `none` stands for an execution that
  leaves defined behaviour: a violated `assert`, a null pointer that is
  dereferenced, a result index that does not exist.  `some (failure, s)` is a
  regular `return failure()` reached in state `s`.
* Strings (`llvm::StringRef`, `std::string`, `char *`) are lists of characters.
* Pointers that may be null (`clast_expr *`, `clast_stmt *`) are inductive types
  with a `null` constructor.
* `unsigned` positions in a string are natural numbers.
-/

namespace Polymer

/-- Strings of the source are character sequences. -/
abbrev StringRef := List Char

/-- The result type `mlir::LogicalResult`. -/
inductive LogicalResult
  | success
  | failure
deriving DecidableEq

/-- The test `failed(r)`. -/
def failed : LogicalResult → Bool
  | .success => false
  | .failure => true

/-! ## The clast expressions and statements (CLooG, `cloog/clast.h`) -/

/-- The operator of a reduction, `enum clast_red_type`. -/
inductive clast_red_type
  | clast_red_sum
  | clast_red_min
  | clast_red_max
deriving DecidableEq

/-- The operator of a binary expression, `enum clast_bin_type`. -/
inductive clast_bin_type
  | clast_bin_fdiv
  | clast_bin_cdiv
  | clast_bin_div
  | clast_bin_mod
deriving DecidableEq

mutual
/-- A `clast_expr *`.  `null` is the null pointer; the other constructors are the
four values of `expr->type` (`clast_expr_name`, `clast_expr_term`,
`clast_expr_bin`, `clast_expr_red`).  A term is `val * var` when `var` is not
null and the constant `val` otherwise; `cloog_int_t` values are integers. -/
inductive clast_expr
  | null
  | expr_name (name : StringRef)
  | expr_term (val : Int) (var : clast_expr)
  | expr_bin (type : clast_bin_type) (LHS : clast_expr) (RHS : Int)
  | expr_red (type : clast_red_type) (elts : clast_elts)
/-- The array `elts[0 .. n-1]` of a reduction; `n` is its length. -/
inductive clast_elts
  | nil
  | cons (elt : clast_expr) (rest : clast_elts)
end

/-- The number `n` of elements of a reduction. -/
def clast_elts.n : clast_elts → Nat
  | .nil => 0
  | .cons _ rest => rest.n + 1

/-- The elements of a reduction as a list. -/
def clast_elts.toList : clast_elts → List clast_expr
  | .nil => []
  | .cons e rest => e :: rest.toList

/-- Build the array of a reduction from a list. -/
def clast_elts.ofList : List clast_expr → clast_elts
  | [] => .nil
  | e :: es => .cons e (clast_elts.ofList es)

/-- The test `e->type == clast_expr_term` (on a non-null pointer). -/
def clast_expr.isTerm : clast_expr → Bool
  | .expr_term _ _ => true
  | _ => false

/-- A `clast_stmt *`: a statement list chained by `next`, `null` being the end of
the chain.  The constructors are the statement kinds that `CLAST_STMT_IS_A`
distinguishes; `stmt_other` is any kind the importer has no case for.  A user
statement carries `statement->number`; a for-node its iterator name, its two
bounds, its stride and its body.  The payloads of assignments, guards and blocks
are never read by the importer and are left out. -/
inductive clast_stmt
  | null
  | stmt_root (next : clast_stmt)
  | stmt_ass (next : clast_stmt)
  | stmt_user (number : Int) (next : clast_stmt)
  | stmt_for (iterator : StringRef) (LB UB : clast_expr) (stride : Int)
      (body : clast_stmt) (next : clast_stmt)
  | stmt_guard (next : clast_stmt)
  | stmt_block (next : clast_stmt)
  | stmt_other (next : clast_stmt)

/-! ## The scop (`polymer/Support/OslScop.h`, OpenScop library) -/

/-- An `osl_body`: the iterator names and the expression strings, either of
which may be a null pointer. -/
structure osl_body where
  iterators : Option (List StringRef)
  expression : Option (List StringRef)
deriving DecidableEq

/-- An `osl_statement`; `osl_statement_get_body` gives its body or null. -/
structure osl_statement where
  body : Option osl_body
deriving DecidableEq

/-- Modelled from the spec: the class `OslScop` (declared in
`polymer/Support/OslScop.h`, not part of this file) is "a set of statements
indexed 0..N-1" together with "a symbol classifier answering: is this name a
declared parameter symbol?". -/
structure OslScop where
  statements : List osl_statement
  isSymbol : StringRef → Bool

/-- Modelled from the spec: `OslScop::getStatement(index, &stmt)` is the statement
lookup by index; "failure (out of range / malformed statement) is a hard
failure".  `none` is the failure result. -/
def OslScop.getStatement (scop : OslScop) (index : Int) : Option osl_statement :=
  if 0 ≤ index then scop.statements[index.toNat]? else none

/-! ## Integer conversion -/

/-- The largest `int64_t`. -/
def INT64_MAX : Int := 2 ^ 63 - 1

/-- The smallest `int64_t`. -/
def INT64_MIN : Int := -(2 ^ 63)

/-- The C library function `strtoll` on the decimal text of `num`: the value
when it is representable, the nearest bound otherwise. -/
def strtoll (num : Int) : Int :=
  if num < INT64_MIN then INT64_MIN else if INT64_MAX < num then INT64_MAX else num

/-- The function `getI64`: print the cloog integer to a buffer, read it back
with `strtoll`, return `success()`. -/
def getI64 (num : Int) : LogicalResult × Int :=
  (LogicalResult.success, strtoll num)

/-! ## Affine expressions (MLIR) -/

/-- An `mlir::AffineExpr` that is set: a symbol slot, a dimension slot, a constant
or a sum.  The null `AffineExpr` is `none` in `Option AffineExpr`. -/
inductive AffineExpr
  | symbol (position : Nat)
  | dim (position : Nat)
  | constant (value : Int)
  | add (lhs rhs : AffineExpr)
deriving DecidableEq

/-- The operator `lhs + rhs` on `AffineExpr` handles; it dereferences both. -/
def AffineExpr.plus : Option AffineExpr → Option AffineExpr → Option AffineExpr
  | some a, some b => some (AffineExpr.add a b)
  | _, _ => none

/-- The value of an affine expression when symbol slot `k` has the value `sym k`
and dimension slot `k` the value `dim k`. -/
def AffineExpr.eval (sym dim : Nat → Int) : AffineExpr → Int
  | .symbol k => sym k
  | .dim k => dim k
  | .constant c => c
  | .add a b => a.eval sym dim + b.eval sym dim

/-- The symbol slots an affine expression refers to, left to right. -/
def AffineExpr.symbols : AffineExpr → List Nat
  | .symbol k => [k]
  | .dim _ => []
  | .constant _ => []
  | .add a b => a.symbols ++ b.symbols

/-! ## `AffineExprBuilder` -/

/-- The mutable members of `AffineExprBuilder`. -/
structure AffineExprBuilder where
  symbolNames : List StringRef
  dimNames : List StringRef
deriving DecidableEq

/-- The state a member function of the builder works on: the builder and the
reference parameter `affExpr`. -/
abbrev BuildState := AffineExprBuilder × Option AffineExpr

namespace AffineExprBuilder

/-- The member `reset()`: the state of a freshly constructed builder. -/
def reset : AffineExprBuilder :=
  { symbolNames := [], dimNames := [] }

/-- The overload `process(clast_name *, AffineExpr &)`. -/
def process_name (scop : OslScop) (name : StringRef) (b : AffineExprBuilder)
    (_affExpr : Option AffineExpr) : Option (LogicalResult × BuildState) :=
  if scop.isSymbol name then
    some (.success,
      { b with symbolNames := b.symbolNames ++ [name] },
      some (AffineExpr.symbol b.symbolNames.length))
  else none

mutual
/-- The overload `process(clast_expr *, AffineExpr &)`, with the bodies of the
overloads it dispatches to unfolded in place (`process_term`,
`process_reduction` and `processSumReduction` below state them one by one).
The cases, in order: a null pointer; a name; a term without and with a `var`; a
binary expression, for which the `switch` has no case; a reduction with
`n == 1`; a sum with `n == 0` (the first assertion of `processSumReduction`);
a sum with `n >= 2`; any other reduction. -/
def process (scop : OslScop) : clast_expr → AffineExprBuilder → Option AffineExpr →
    Option (LogicalResult × BuildState)
  | .null, _, _ => none
  | .expr_name name, b, affExpr =>
    match process_name scop name b affExpr with
    | none => none
    | some (.failure, s) => some (.failure, s)
    | some (.success, s) => some (.success, s)
  | .expr_term val .null, b, affExpr =>
    if failed (getI64 val).1 then some (.failure, b, affExpr)
    else some (.success, b, some (AffineExpr.constant (getI64 val).2))
  | .expr_term _ var, b, affExpr =>
    match process scop var b affExpr with
    | none => none
    | some (.failure, s) => some (.failure, s)
    | some (.success, s) => some (.success, s)
  | .expr_bin _ _ _, b, affExpr => some (.success, b, affExpr)
  | .expr_red _ (.cons elt .nil), b, affExpr =>
    match process scop elt b affExpr with
    | none => none
    | some (.failure, s) => some (.failure, s)
    | some (.success, s) => some (.success, s)
  | .expr_red .clast_red_sum .nil, _, _ => none
  | .expr_red .clast_red_sum (.cons elt rest), b, affExpr =>
    if elt.isTerm then
      match process scop elt b affExpr with
      | none => none
      | some (.failure, s) => some (.failure, s)
      | some (.success, b1, affExpr1) =>
        match sumLoop scop rest b1 affExpr1 none with
        | none => none
        | some (.failure, s) => some (.failure, s)
        | some (.success, s) => some (.success, s)
    else none
  | .expr_red _ _, b, affExpr => some (.success, b, affExpr)
/-- The loop `for (i = 1; i < expr->n; ++i)` of `processSumReduction` over the
elements after the first; `currExpr` is the local declared before the loop. -/
def sumLoop (scop : OslScop) : clast_elts → AffineExprBuilder → Option AffineExpr →
    Option AffineExpr → Option (LogicalResult × BuildState)
  | .nil, b, affExpr, _ => some (.success, b, affExpr)
  | .cons elt rest, b, affExpr, currExpr =>
    if elt.isTerm then
      match process scop elt b currExpr with
      | none => none
      | some (.failure, b1, _) => some (.failure, b1, affExpr)
      | some (.success, b1, currExpr1) =>
        match AffineExpr.plus affExpr currExpr1 with
        | none => none
        | some sum => sumLoop scop rest b1 (some sum) currExpr1
    else none
end

/-- The overload `process(clast_term *, AffineExpr &)`: with a `var`, the result of
processing `var` (the coefficient `val` is not read); without, the constant. -/
def process_term (scop : OslScop) (val : Int) (var : clast_expr) (b : AffineExprBuilder)
    (affExpr : Option AffineExpr) : Option (LogicalResult × BuildState) :=
  match var with
  | .null =>
    if failed (getI64 val).1 then some (.failure, b, affExpr)
    else some (.success, b, some (AffineExpr.constant (getI64 val).2))
  | var =>
    match process scop var b affExpr with
    | none => none
    | some (.failure, s) => some (.failure, s)
    | some (.success, s) => some (.success, s)

/-- The function `processSumReduction`: both assertions, the first element, then
the loop over the others. -/
def processSumReduction (scop : OslScop) (elts : clast_elts) (b : AffineExprBuilder)
    (affExpr : Option AffineExpr) : Option (LogicalResult × BuildState) :=
  match elts with
  | .nil => none
  | .cons elt rest =>
    if elt.isTerm then
      match process scop elt b affExpr with
      | none => none
      | some (.failure, s) => some (.failure, s)
      | some (.success, b1, affExpr1) => sumLoop scop rest b1 affExpr1 none
    else none

/-- The overload `process(clast_reduction *, AffineExpr &)`. -/
def process_reduction (scop : OslScop) (type : clast_red_type) (elts : clast_elts)
    (b : AffineExprBuilder) (affExpr : Option AffineExpr) :
    Option (LogicalResult × BuildState) :=
  match elts with
  | .cons elt .nil =>
    match process scop elt b affExpr with
    | none => none
    | some (.failure, s) => some (.failure, s)
    | some (.success, s) => some (.success, s)
  | elts =>
    match type with
    | .clast_red_sum =>
      match processSumReduction scop elts b affExpr with
      | none => none
      | some (.failure, s) => some (.failure, s)
      | some (.success, s) => some (.success, s)
    | _ => some (.success, b, affExpr)

end AffineExprBuilder

/-! ## The IR under construction (MLIR) -/

/-- The MLIR types the importer builds: `index`, `f32`, and a `memref` of `f32`
elements with the given shape (`-1` is a dynamic dimension). -/
inductive MLIRType
  | index
  | f32
  | memref (shape : List Int)
deriving DecidableEq

/-- An `mlir::FunctionType`. -/
structure FunctionType where
  inputs : List MLIRType
  results : List MLIRType
deriving DecidableEq

/-- An `mlir::Value`: the argument `index` of the block `block`, or the result
`index` of the operation `op`.  Blocks and operations are named by their
position in the tables of the importer state. -/
inductive Value
  | blockArgument (block : Nat) (index : Nat)
  | opResult (op : Nat) (index : Nat)
deriving DecidableEq

/-- An `mlir::AffineMap` with one result. -/
structure AffineMap where
  numDims : Nat
  numSymbols : Nat
  result : AffineExpr
deriving DecidableEq

/-- The operations that occur.  A `FuncOp` has a name, a type and, when it is not
a declaration, an entry block; an `AffineForOp` its bound operands and maps, its
step and its body block; a `CallOp` its callee name, operands and result types. -/
inductive Operation
  | ModuleTerminatorOp
  | FuncOp (name : StringRef) (type : FunctionType) (body : Option Nat)
  | ReturnOp
  | AffineTerminatorOp
  | CallOp (callee : StringRef) (operands : List Value) (resultTypes : List MLIRType)
  | AffineForOp (lbOperands : List Value) (lbMap : AffineMap) (ubOperands : List Value)
      (ubMap : AffineMap) (step : Int) (body : Nat)
deriving DecidableEq

/-- The number of results of an operation, `getNumResults()`. -/
def Operation.getNumResults : Operation → Nat
  | .CallOp _ _ resultTypes => resultTypes.length
  | _ => 0

/-- An `mlir::Block`: the types of its arguments and its operations in order. -/
structure Block where
  arguments : List MLIRType
  operations : List Nat
deriving DecidableEq

/-- The kinds of symbol table entry, `OslSymbolTable::SymbolType`. -/
inductive SymbolType
  | LoopIV
  | Memref
  | StmtOp
deriving DecidableEq

/-- Modelled from the spec: the class `OslSymbolTable` (declared in
`polymer/Support/OslSymbolTable.h`, not part of this file) is a "mapping from
names to IR values (loop IVs, memory objects) and from names to IR operations
(statement calls)"; "entries are never removed during a run".  A binding is put
in front, so that the newest binding of a name is the one found. -/
structure OslSymbolTable where
  values : List (StringRef × Value)
  operations : List (StringRef × Nat)
deriving DecidableEq

namespace OslSymbolTable

/-- Modelled from the spec: `getValue(key)`, the value bound to the name or null. -/
def getValue (t : OslSymbolTable) (key : StringRef) : Option Value :=
  t.values.lookup key

/-- Modelled from the spec: `setValue(key, val, type)` binds the name to the value. -/
def setValue (t : OslSymbolTable) (key : StringRef) (val : Value) (_type : SymbolType) :
    OslSymbolTable :=
  { t with values := (key, val) :: t.values }

/-- Modelled from the spec: `getOperation(key)`, the operation bound to the name
or null. -/
def getOperation (t : OslSymbolTable) (key : StringRef) : Option Nat :=
  t.operations.lookup key

/-- Modelled from the spec: `setOperation(key, op, type)` binds the name to the
operation. -/
def setOperation (t : OslSymbolTable) (key : StringRef) (op : Nat) (_type : SymbolType) :
    OslSymbolTable :=
  { t with operations := (key, op) :: t.operations }

end OslSymbolTable

/-- The state an `Importer` works on: the operations and blocks created so far
(an operation or block is named by its position in `ops` or `blocks`), the
insertion point of the builder `b` (a block and the operation before which the
next one is inserted, `none` being the end of the block), the body block of
`module`, the handle `func` (null before the root statement), the symbol table
and the two maps `symNameToArg` and `calleeMap`. -/
structure Importer where
  ops : List Operation
  blocks : List Block
  insertBlock : Nat
  insertPt : Option Nat
  moduleBody : Nat
  func : Option Nat
  symTable : OslSymbolTable
  symNameToArg : List (StringRef × Value)
  calleeMap : List (StringRef × Nat)
deriving DecidableEq

/-- Put `op` in front of the first occurrence of `before` in a block's operation
list (at the end when there is none). -/
def insertBeforeOp : List Nat → Nat → Nat → List Nat
  | [], _, op => [op]
  | y :: ys, before, op =>
    if y = before then op :: y :: ys else y :: insertBeforeOp ys before op

/-- Insert `op` at an insertion point of a block's operation list. -/
def insertAt (operations : List Nat) (pt : Option Nat) (op : Nat) : List Nat :=
  match pt with
  | none => operations ++ [op]
  | some before => insertBeforeOp operations before op

/-- Apply `f` to the block at position `i`. -/
def updateBlock : List Block → Nat → (Block → Block) → List Block
  | [], _, _ => []
  | b :: bs, 0, f => f b :: bs
  | b :: bs, i + 1, f => b :: updateBlock bs i f

/-- Apply `f` to the operation at position `i`. -/
def updateOp : List Operation → Nat → (Operation → Operation) → List Operation
  | [], _, _ => []
  | o :: os, 0, f => f o :: os
  | o :: os, i + 1, f => o :: updateOp os i f

/-- The member `setType` of a `FuncOp`. -/
def Operation.setType (type : FunctionType) : Operation → Operation
  | .FuncOp name _ body => .FuncOp name type body
  | op => op

/-- The operation that follows `op` in an operation list, if any. -/
def nextOp : List Nat → Nat → Option Nat
  | [], _ => none
  | y :: ys, op => if y = op then ys.head? else nextOp ys op

/-- The block that contains the operation `op`: `op->getBlock()`. -/
def parentBlock : List Block → Nat → Nat → Option Nat
  | [], _, _ => none
  | b :: bs, i, op => if op ∈ b.operations then some i else parentBlock bs (i + 1) op

namespace Importer

/-- The state after the constructor `Importer(context, module, symTable, scop)`
for a module whose body block is `moduleBody`: the insertion point is the start
of the module body, `func` is null and the two maps are empty. -/
def init (ops : List Operation) (blocks : List Block) (moduleBody : Nat)
    (symTable : OslSymbolTable) : Importer :=
  { ops := ops, blocks := blocks, insertBlock := moduleBody,
    insertPt := (blocks[moduleBody]?.map Block.operations).bind List.head?,
    moduleBody := moduleBody, func := none, symTable := symTable,
    symNameToArg := [], calleeMap := [] }

/-- The state of an importer made for a module as `ModuleOp::create` makes it
(a body holding the terminator) and a new symbol table. -/
def fresh : Importer :=
  init [Operation.ModuleTerminatorOp] [{ arguments := [], operations := [0] }] 0
    { values := [], operations := [] }

/-- The call `b.create<Op>(...)`: the new operation gets the next free position
and is inserted at the insertion point, which stays in front of the same
operation. -/
def create (s : Importer) (op : Operation) : Nat × Importer :=
  (s.ops.length,
   { s with
     ops := s.ops ++ [op],
     blocks := updateBlock s.blocks s.insertBlock
       (fun blk => { blk with operations := insertAt blk.operations s.insertPt s.ops.length }) })

/-- The member `getFuncInsertPt()`: `std::prev(module.getBody()->end())`, the last
operation of the module body (its terminator); undefined on an empty body. -/
def getFuncInsertPt (s : Importer) : Option Nat :=
  match s.blocks[s.moduleBody]? with
  | none => none
  | some blk => blk.operations.getLast?

/-- The expression `*func.getBlocks().begin()`: the entry block of `func`;
undefined when `func` is null or has no block. -/
def entryBlock (s : Importer) : Option Nat :=
  match s.func with
  | none => none
  | some f =>
    match s.ops[f]? with
    | some (.FuncOp _ _ (some blk)) => some blk
    | _ => none

/-- The call `block.addArgument(type)`: the new argument and the new state. -/
def addArgument (s : Importer) (blockId : Nat) (type : MLIRType) : Value × Importer :=
  (Value.blockArgument blockId
     ((s.blocks[blockId]?.map (fun blk => blk.arguments.length)).getD 0),
   { s with
     blocks := updateBlock s.blocks blockId
       (fun blk => { blk with arguments := blk.arguments ++ [type] }) })

/-- The argument types of a block, `getArgumentTypes()`. -/
def getArgumentTypes (s : Importer) (blockId : Nat) : List MLIRType :=
  (s.blocks[blockId]?.map Block.arguments).getD []

/-- The member `isMemrefArg`. -/
def isMemrefArg (argName : StringRef) : Bool :=
  decide (argName.length ≥ 2) && argName.head? == some 'A'

/-- The member `isResultArg`. -/
def isResultArg (argName : StringRef) : Bool :=
  decide (argName.length ≥ 2) && argName.head? == some 'S'

/-! ### `parseUserStmtBody` -/

/-- The first loop of `parseUserStmtBody`, on the text from `pos` on: the text
from the position where the loop stops, and the callee name. -/
def readCalleeName : StringRef → StringRef → StringRef × StringRef
  | [], calleeName => ([], calleeName)
  | c :: rest, calleeName =>
    if c != '(' then readCalleeName rest (calleeName ++ [c]) else (c :: rest, calleeName)

/-- The loop `while (pos < bodyLen)` of `parseUserStmtBody`, entered with the
text from `pos` on, inside its inner loop with the characters of `arg` read so
far.  At a `,` or `)` or at the end of the text the argument is pushed and the
delimiter consumed; the outer loop goes on with an empty `arg` while text is
left. -/
def readArgs : StringRef → StringRef → List StringRef → List StringRef
  | [], arg, args => args ++ [arg]
  | c :: rest, arg, args =>
    if c != ',' && c != ')' then
      readArgs rest (if c != ' ' then arg ++ [c] else arg) args
    else if rest.isEmpty then args ++ [arg]
    else readArgs rest [] (args ++ [arg])

/-- The member `parseUserStmtBody(body, calleeName, args)`; the two reference
parameters are given as they are on entry and returned as they are on exit. -/
def parseUserStmtBody (body : StringRef) (calleeName : StringRef) (args : List StringRef) :
    LogicalResult × StringRef × List StringRef :=
  let r := readCalleeName body calleeName
  let rest := r.1.drop 1
  (.success, r.2, if rest.isEmpty then args else readArgs rest [] args)

/-! ### User statements -/

/-- The memref type `MemRefType::get(std::vector<int64_t>(numArgs - i - 1, -1), f32)`
of the argument at position `i`. -/
def memType (numArgs i : Nat) : MLIRType :=
  MLIRType.memref (List.replicate (numArgs - i - 1) (-1))

/-- The loop that fills `calleeArgTypes`, from position `i` on, `args` being the
argument names from that position on. -/
def calleeArgTypesLoop (numArgs : Nat) : Nat → List StringRef → List MLIRType
  | _, [] => []
  | i, arg :: rest =>
    (if isMemrefArg arg then memType numArgs i
     else if isResultArg arg then MLIRType.f32
     else MLIRType.index) :: calleeArgTypesLoop numArgs (i + 1) rest

/-- The part "Create the callee" of `processStmt(clast_user_stmt *)`: the callee
type, the `FuncOp` created in front of the module terminator, the entry
`calleeMap[calleeName] = callee`, and the insertion point put back.  The result
is the callee and the new state; it is undefined when the module body is empty. -/
def declareCallee (s : Importer) (calleeName : StringRef) (args : List StringRef) :
    Option (Nat × Importer) :=
  match s.getFuncInsertPt with
  | none => none
  | some pt =>
    let r := create { s with insertBlock := s.moduleBody, insertPt := some pt }
      (.FuncOp calleeName { inputs := calleeArgTypesLoop args.length 0 args, results := [] } none)
    some (r.1,
      { r.2 with
        calleeMap := (calleeName, r.1) :: r.2.calleeMap,
        insertBlock := s.insertBlock,
        insertPt := s.insertPt })

/-- The widening of a callee `srcCallee` whose type is `type`: when the type has
no result, the callee gets the function type with the same inputs and the
result `f32`. -/
def widenCallee (s : Importer) (srcCallee : Nat) (type : FunctionType) : Importer :=
  if type.results.length = 0 then
    { s with
      ops := updateOp s.ops srcCallee
        (Operation.setType { inputs := type.inputs, results := [MLIRType.f32] }) }
  else s

/-- The branch of the caller-argument loop for a result of another statement:
the operation bound to the name, the callee of that call, the widening of the
callee type when it has no result, and result 0 of the operation.  `none` is
undefined behaviour (the operation is not a call, its callee is not in
`calleeMap` or is not a function, or the operation has no result 0). -/
def resultArg (s : Importer) (arg : StringRef) : Option (LogicalResult × Importer × Option Value) :=
  match s.symTable.getOperation arg with
  | none => some (.failure, s, none)
  | some srcOp =>
    match s.ops[srcOp]? with
    | some (.CallOp callee _ resultTypes) =>
      match s.calleeMap.lookup callee with
      | none => none
      | some srcCallee =>
        match s.ops[srcCallee]? with
        | some (.FuncOp _ type _) =>
          if 0 < resultTypes.length then
            some (.success, widenCallee s srcCallee type, some (Value.opResult srcOp 0))
          else none
        | _ => none
    | _ => none

/-- One iteration of the loop that fills `callerArgs`, for the argument `arg` at
position `i`; on success the value of `callerArgs[i]`. -/
def callerArg (numArgs entry i : Nat) (arg : StringRef) (s : Importer) :
    Option (LogicalResult × Importer × Option Value) :=
  if isMemrefArg arg then
    match s.symTable.getValue arg with
    | some memref => some (.success, s, some memref)
    | none =>
      let r := s.addArgument entry (memType numArgs i)
      some (.success,
        { r.2 with symTable := r.2.symTable.setValue arg r.1 SymbolType.Memref },
        some r.1)
  else if isResultArg arg then resultArg s arg
  else
    match s.symTable.getValue arg with
    | some val => some (.success, s, some val)
    | none =>
      match s.symNameToArg.lookup arg with
      | some val => some (.success, s, some val)
      | none => some (.failure, s, none)

/-- The loop that fills `callerArgs`, from position `i` on; `callerArgs` holds the
values of the positions before `i`. -/
def callerArgsLoop (numArgs entry : Nat) : Nat → List StringRef → Importer → List Value →
    Option (LogicalResult × Importer × List Value)
  | _, [], s, callerArgs => some (.success, s, callerArgs)
  | i, arg :: rest, s, callerArgs =>
    match callerArg numArgs entry i arg s with
    | none => none
    | some (.failure, s1, _) => some (.failure, s1, callerArgs)
    | some (.success, _, none) => none
    | some (.success, s1, some val) =>
      callerArgsLoop numArgs entry (i + 1) rest s1 (callerArgs ++ [val])

/-- The end of `processStmt(clast_user_stmt *)`: the `CallOp` to `callee` with the
result types the callee has now, and its entry in the symbol table. -/
def emitCall (s : Importer) (calleeName : StringRef) (callee : Nat) (callerArgs : List Value) :
    Option (LogicalResult × Importer) :=
  match s.ops[callee]? with
  | some (.FuncOp _ type _) =>
    let r := create s (.CallOp calleeName callerArgs type.results)
    some (.success,
      { r.2 with symTable := r.2.symTable.setOperation calleeName r.1 SymbolType.StmtOp })
  | _ => none

/-- The text `body->expression->string[0]` of a statement, after the three
assertions on the body. -/
def bodyText (stmt : osl_statement) : Option StringRef :=
  match stmt.body with
  | none => none
  | some body =>
    match body.expression, body.iterators with
    | some expression, some _ => some (expression.headD [])
    | _, _ => none

/-- The member `processStmt(clast_user_stmt *)` for a user statement whose
`statement->number` is `number`. -/
def processStmt_user (scop : OslScop) (number : Int) (s : Importer) :
    Option (LogicalResult × Importer) :=
  match scop.getStatement (number - 1) with
  | none => some (.failure, s)
  | some stmt =>
    match bodyText stmt with
    | none => none
    | some text =>
      let parsed := parseUserStmtBody text [] []
      if failed parsed.1 then some (.failure, s)
      else
        match declareCallee s parsed.2.1 parsed.2.2 with
        | none => none
        | some (callee, s1) =>
          match s1.entryBlock with
          | none => none
          | some entry =>
            match callerArgsLoop parsed.2.2.length entry 0 parsed.2.2 s1 [] with
            | none => none
            | some (.failure, s2, _) => some (.failure, s2)
            | some (.success, s2, callerArgs) => emitCall s2 parsed.2.1 callee callerArgs

/-! ### For-nodes -/

/-- The loop over `builder.symbolNames` in `getAffineLoopBound`: a new `index`
argument of the entry block for every name, `try_emplace` of the name with that
argument, and the operand `symNameToArg[symName]`. -/
def symbolArgsLoop (entry : Nat) : List StringRef → Importer → List Value →
    Importer × List Value
  | [], s, operands => (s, operands)
  | symName :: rest, s, operands =>
    match ((s.addArgument entry MLIRType.index).2).symNameToArg.lookup symName with
    | some val =>
      symbolArgsLoop entry rest (s.addArgument entry MLIRType.index).2 (operands ++ [val])
    | none =>
      symbolArgsLoop entry rest
        { (s.addArgument entry MLIRType.index).2 with
          symNameToArg := (symName, (s.addArgument entry MLIRType.index).1) ::
            (s.addArgument entry MLIRType.index).2.symNameToArg }
        (operands ++ [(s.addArgument entry MLIRType.index).1])

/-- The member `getAffineLoopBound(expr, operands, affMap)`; the two reference
parameters are returned as they are on exit.  `AffineMap::get` on a null
expression is undefined. -/
def getAffineLoopBound (scop : OslScop) (expr : clast_expr) (operands : List Value)
    (affMap : Option AffineMap) (s : Importer) :
    Option (LogicalResult × Importer × List Value × Option AffineMap) :=
  match AffineExprBuilder.process scop expr AffineExprBuilder.reset none with
  | none => none
  | some (.failure, _) => some (.failure, s, operands, affMap)
  | some (.success, builder, boundExpr) =>
    match s.entryBlock with
    | none => none
    | some entry =>
      match boundExpr with
      | none => none
      | some e =>
        some (.success,
          (symbolArgsLoop entry builder.symbolNames s operands).1,
          (symbolArgsLoop entry builder.symbolNames s operands).2,
          some { numDims := builder.dimNames.length,
                 numSymbols := builder.symbolNames.length, result := e })

/-- The call `b.setInsertionPointAfter(op)`. -/
def setInsertionPointAfter (s : Importer) (op : Nat) : Option Importer :=
  match parentBlock s.blocks 0 op with
  | none => none
  | some blk =>
    some { s with
           insertBlock := blk,
           insertPt := nextOp ((s.blocks[blk]?.map Block.operations).getD []) op }

/-- The stride of a for-node: 1, or `getI64` of the stride when it is greater
than 1. -/
def getStride (stride : Int) : LogicalResult × Int :=
  if stride > 1 then getI64 stride else (.success, 1)

/-- The part of `processStmt(clast_for *)` from "Create the for operation" to the
insertion point at the start of the loop body: the `AffineForOp`, its body block
with one `index` argument and the terminator, and the iterator bound to that
argument in the symbol table. -/
def createFor (s : Importer) (iterator : StringRef) (lbOperands : List Value) (lbMap : AffineMap)
    (ubOperands : List Value) (ubMap : AffineMap) (stride : Int) : Nat × Importer :=
  let r := create s (.AffineForOp lbOperands lbMap ubOperands ubMap stride s.blocks.length)
  (r.1,
   { r.2 with
     ops := r.2.ops ++ [Operation.AffineTerminatorOp],
     blocks := r.2.blocks ++ [{ arguments := [MLIRType.index], operations := [r.2.ops.length] }],
     symTable := r.2.symTable.setValue iterator (Value.blockArgument s.blocks.length 0)
       SymbolType.LoopIV,
     insertBlock := s.blocks.length,
     insertPt := some r.2.ops.length })

/-- The member `processStmt(clast_for *)`.  `processBody` is the call
`processStmtList(forStmt->body)`, whose result the function does not read. -/
def processStmt_for (scop : OslScop) (iterator : StringRef) (LB UB : clast_expr) (stride : Int)
    (processBody : Importer → Option (LogicalResult × Importer)) (s : Importer) :
    Option (LogicalResult × Importer) :=
  match LB, UB with
  | .null, _ => none
  | _, .null => none
  | LB, UB =>
    match getAffineLoopBound scop LB [] none s with
    | none => none
    | some (.failure, s1, _) => some (.failure, s1)
    | some (.success, s1, lbOperands, lbMap) =>
      match getAffineLoopBound scop UB [] none s1 with
      | none => none
      | some (.failure, s2, _) => some (.failure, s2)
      | some (.success, s2, ubOperands, ubMap) =>
        if failed (getStride stride).1 then some (.failure, s2)
        else
          match lbMap, ubMap with
          | some lbMap, some ubMap =>
            match processBody
              (createFor s2 iterator lbOperands lbMap ubOperands ubMap (getStride stride).2).2 with
            | none => none
            | some (_, s3) =>
              match setInsertionPointAfter s3
                (createFor s2 iterator lbOperands lbMap ubOperands ubMap (getStride stride).2).1 with
              | none => none
              | some s4 => some (.success, s4)
          | _, _ => none

/-! ### The root and the statement list -/

/-- Set the entry block of a `FuncOp`. -/
def Operation.setBody (body : Nat) : Operation → Operation
  | .FuncOp name type _ => .FuncOp name type (some body)
  | op => op

/-- The member `processStmt(clast_root *)`: the function `main` in front of the
module terminator, its entry block, the `ReturnOp` at its end and the insertion
point at its start. -/
def processStmt_root (s : Importer) : Option (LogicalResult × Importer) :=
  match s.getFuncInsertPt with
  | none => none
  | some pt =>
    let r := create { s with insertBlock := s.moduleBody, insertPt := some pt }
      (.FuncOp "main".toList { inputs := [], results := [] } none)
    let entry := r.2.blocks.length
    let s1 : Importer :=
      { r.2 with
        func := some r.1,
        ops := updateOp r.2.ops r.1 (Operation.setBody entry),
        blocks := r.2.blocks ++ [{ arguments := [], operations := [] }],
        insertBlock := entry,
        insertPt := none }
    let r2 := create s1 Operation.ReturnOp
    some (.success, { r2.2 with insertBlock := entry, insertPt := some r2.1 })

/-- The end of `processStmtList`, "Post update the function type". -/
def postUpdate (s : Importer) : Option (LogicalResult × Importer) :=
  match s.func, s.entryBlock with
  | some f, some entry =>
    some (.success,
      { s with
        ops := updateOp s.ops f
          (Operation.setType { inputs := s.getArgumentTypes entry, results := [] }) })
  | _, _ => none

/-- The member `processStmtList`. -/
def processStmtList (scop : OslScop) : clast_stmt → Importer → Option (LogicalResult × Importer)
  | .null, s => postUpdate s
  | .stmt_root next, s =>
    match processStmt_root s with
    | none => none
    | some (.failure, s1) => some (.failure, s1)
    | some (.success, s1) => processStmtList scop next s1
  | .stmt_ass next, s => processStmtList scop next s
  | .stmt_user number next, s =>
    match processStmt_user scop number s with
    | none => none
    | some (.failure, s1) => some (.failure, s1)
    | some (.success, s1) => processStmtList scop next s1
  | .stmt_for iterator LB UB stride body next, s =>
    match processStmt_for scop iterator LB UB stride (processStmtList scop body) s with
    | none => none
    | some (.failure, s1) => some (.failure, s1)
    | some (.success, s1) => processStmtList scop next s1
  | .stmt_guard next, s => processStmtList scop next s
  | .stmt_block next, s => processStmtList scop next s
  | .stmt_other next, s => processStmtList scop next s

end Importer

/-! ## The two entry points -/

/-- The function `createFuncOpFromOpenScop`, on the clast `rootStmt` that CLooG
makes from the scop: the function `main`, or null when the import fails. -/
def createFuncOpFromOpenScop (scop : OslScop) (rootStmt : clast_stmt) (s : Importer) :
    Option (Option Nat × Importer) :=
  match Importer.processStmtList scop rootStmt s with
  | none => none
  | some (.failure, s1) => some (none, s1)
  | some (.success, s1) => some (s1.func, s1)

/-- The function `translateOpenScopToModule(scop, context)`: the module, or the
null module reference.  As written it returns the null reference when
`createFuncOpFromOpenScop` gives a function and the module otherwise. -/
def translateOpenScopToModule (scop : OslScop) (rootStmt : clast_stmt) :
    Option (Option Importer) :=
  match createFuncOpFromOpenScop scop rootStmt Importer.fresh with
  | none => none
  | some (some _, _) => some none
  | some (none, s1) => some (some s1)

/-! ## Notions used in the statements -/

mutual
/-- The names that occur in an expression, from left to right (for the
expressions of `isSimpleBound`, the order in which the builder visits them). -/
def clast_expr.names : clast_expr → List StringRef
  | .null => []
  | .expr_name name => [name]
  | .expr_term _ var => var.names
  | .expr_bin _ LHS _ => LHS.names
  | .expr_red _ elts => elts.names
/-- The names of the elements of a reduction. -/
def clast_elts.names : clast_elts → List StringRef
  | .nil => []
  | .cons elt rest => elt.names ++ rest.names
end

mutual
/-- The coefficients of an expression: the `val` of every term that has a `var`. -/
def clast_expr.coefficients : clast_expr → List Int
  | .null => []
  | .expr_name _ => []
  | .expr_term _ .null => []
  | .expr_term val var => val :: var.coefficients
  | .expr_bin _ LHS _ => LHS.coefficients
  | .expr_red _ elts => elts.coefficients
/-- The coefficients of the elements of a reduction. -/
def clast_elts.coefficients : clast_elts → List Int
  | .nil => []
  | .cons elt rest => elt.coefficients ++ rest.coefficients
end

mutual
/-- The constants of an expression: the `val` of every term without a `var`. -/
def clast_expr.constants : clast_expr → List Int
  | .null => []
  | .expr_name _ => []
  | .expr_term val .null => [val]
  | .expr_term _ var => var.constants
  | .expr_bin _ LHS _ => LHS.constants
  | .expr_red _ elts => elts.constants
/-- The constants of the elements of a reduction. -/
def clast_elts.constants : clast_elts → List Int
  | .nil => []
  | .cons elt rest => elt.constants ++ rest.constants
end

/-- The arithmetic meaning of the binary operators of CLooG: `floord`, `ceild`,
the quotient and the remainder. -/
def binValue : clast_bin_type → Int → Int → Int
  | .clast_bin_fdiv, l, r => Int.fdiv l r
  | .clast_bin_cdiv, l, r => -(Int.fdiv (-l) r)
  | .clast_bin_div, l, r => Int.tdiv l r
  | .clast_bin_mod, l, r => Int.tmod l r

/-- The arithmetic meaning of a reduction over the values of its elements. -/
def redValue : clast_red_type → List Int → Int
  | .clast_red_sum, vs => vs.sum
  | .clast_red_min, [] => 0
  | .clast_red_min, v :: vs => vs.foldl min v
  | .clast_red_max, [] => 0
  | .clast_red_max, v :: vs => vs.foldl max v

mutual
/-- The arithmetic value of a clast expression when every name `n` has the value
`env n`: a term with a `var` is `val * var`, a sum the sum of its elements. -/
def clast_expr.value (env : StringRef → Int) : clast_expr → Int
  | .null => 0
  | .expr_name name => env name
  | .expr_term val .null => val
  | .expr_term val var => val * var.value env
  | .expr_bin type LHS RHS => binValue type (LHS.value env) RHS
  | .expr_red type elts => redValue type (elts.values env)
/-- The values of the elements of a reduction. -/
def clast_elts.values (env : StringRef → Int) : clast_elts → List Int
  | .nil => []
  | .cons elt rest => elt.value env :: rest.values env
end

/-- A constant term, or a term that wraps a name. -/
def clast_expr.isSimpleTerm : clast_expr → Bool
  | .expr_term _ .null => true
  | .expr_term _ (.expr_name _) => true
  | _ => false

/-- Every element of a reduction satisfies `p`. -/
def clast_elts.all (p : clast_expr → Bool) : clast_elts → Bool
  | .nil => true
  | .cons elt rest => p elt && rest.all p

/-- The bound expressions built only from a name node, a constant term, a term
that wraps a name, or a sum reduction whose elements are such terms. -/
def clast_expr.isSimpleBound : clast_expr → Bool
  | .expr_name _ => true
  | .expr_term _ .null => true
  | .expr_term _ (.expr_name _) => true
  | .expr_red .clast_red_sum elts => elts.all clast_expr.isSimpleTerm
  | _ => false

/-- The value of symbol slot `k` when every name has the value `env` gives it:
the value of the name `symbolNames[k]`. -/
def slotEnv (env : StringRef → Int) (symbolNames : List StringRef) (k : Nat) : Int :=
  env (symbolNames.getD k [])

/-- The characters of a token that are not spaces. -/
def stripSpaces (t : StringRef) : StringRef := t.filter (fun c => c != ' ')

/-- The operation `o2` is `o1`, or `o1` is a function and `o2` the same function
with other result types. -/
def Operation.Widened (o1 o2 : Operation) : Prop :=
  o2 = o1 ∨ ∃ name ty1 ty2 body,
    o1 = .FuncOp name ty1 body ∧ o2 = .FuncOp name ty2 body ∧ ty2.inputs = ty1.inputs

/-- What the loop over the caller arguments leaves as it is: every operation up
to the result types of functions, the operations of every block, the insertion
point, the module, `func`, the two maps, the operations of the symbol table, the
value of every name that has one, and the value of every name that is not a
memory reference. -/
structure ArgsFrame (s1 s2 : Importer) : Prop where
  ops : List.Forall₂ Operation.Widened s1.ops s2.ops
  blockOps : ∀ b : Nat,
    s2.blocks[b]?.map Block.operations = s1.blocks[b]?.map Block.operations
  insertBlock : s2.insertBlock = s1.insertBlock
  insertPt : s2.insertPt = s1.insertPt
  moduleBody : s2.moduleBody = s1.moduleBody
  func : s2.func = s1.func
  symNameToArg : s2.symNameToArg = s1.symNameToArg
  calleeMap : s2.calleeMap = s1.calleeMap
  symOps : s2.symTable.operations = s1.symTable.operations
  valuesKeep : ∀ name v, s1.symTable.getValue name = some v → s2.symTable.getValue name = some v
  valuesOther : ∀ name, Importer.isMemrefArg name = false →
    s2.symTable.getValue name = s1.symTable.getValue name

/-- The value `v` is what the name `name` of a user statement resolves to, `s1`
being the state before the statement and `s2` the state after it: the memory
object bound to a memory reference name, result 0 of the operation bound to a
result name, and for any other name the value bound to it in the symbol table
or else the argument bound to it in `symNameToArg`. -/
def ArgResolves (s1 s2 : Importer) (name : StringRef) (v : Value) : Prop :=
  if Importer.isMemrefArg name then s2.symTable.getValue name = some v
  else if Importer.isResultArg name then
    ∃ op, s1.symTable.getOperation name = some op ∧ v = Value.opResult op 0
  else s1.symTable.getValue name = some v ∨
    (s1.symTable.getValue name = none ∧ s1.symNameToArg.lookup name = some v)

/-- The name `name` cannot be resolved as a caller argument in the state `s`: it
is neither a memory reference nor a result name, and it is bound neither in the
symbol table nor in `symNameToArg`. -/
def Unresolved (s : Importer) (name : StringRef) : Prop :=
  Importer.isMemrefArg name = false ∧ Importer.isResultArg name = false ∧
    s.symTable.getValue name = none ∧ s.symNameToArg.lookup name = none

/-! ## Sample inputs -/

namespace Examples

/-- A statement whose body text is `text`. -/
def stmtOf (text : String) : osl_statement :=
  { body := some { iterators := some [], expression := some [text.toList] } }

/-- The scop whose statements have the body texts `texts` and whose symbols are
the names in `symbols`. -/
def scopOf (texts : List String) (symbols : List String) : OslScop :=
  { statements := texts.map stmtOf,
    isSymbol := fun n => (symbols.map String.toList).contains n }

/-- The constant term `c`. -/
def constant (c : Int) : clast_expr := .expr_term c .null

/-- The name node `n`. -/
def name (n : String) : clast_expr := .expr_name n.toList

/-- The for-node `for (i = lb; i <= ub; i += 1) body`, followed by `next`. -/
def loop (lb ub : clast_expr) (body next : clast_stmt) : clast_stmt :=
  .stmt_for "i".toList lb ub 1 body next

/-- The import of a statement list with a new importer. -/
def run (scop : OslScop) (list : clast_stmt) : Option (LogicalResult × Importer) :=
  Importer.processStmtList scop list Importer.fresh

/-- The result of `run`, without the state. -/
def result (scop : OslScop) (list : clast_stmt) : Option LogicalResult :=
  (run scop list).map Prod.fst

/-- The state after the root statement alone. -/
def rootState : Importer :=
  ((Importer.processStmt_root Importer.fresh).map Prod.snd).getD Importer.fresh

/-- The state at the start of the body of the loop `for (i = 0; i <= 9; i += 1)`
that follows the root statement. -/
def loopBodyState : Importer :=
  (Importer.createFor rootState "i".toList
    [] { numDims := 0, numSymbols := 0, result := AffineExpr.constant 0 }
    [] { numDims := 0, numSymbols := 0, result := AffineExpr.constant 9 } 1).2

/-- The state after the root statement and the user statement number 1. -/
def firstStatementState (scop : OslScop) : Importer :=
  ((Importer.processStmt_user scop 1 rootState).map Prod.snd).getD rootState

/-- What a user statement with the number `number` returns in the state `s`, or
failure in `s` when it is undefined. -/
def userOutcome (scop : OslScop) (number : Int) (s : Importer) : LogicalResult × Importer :=
  (Importer.processStmt_user scop number s).getD (LogicalResult.failure, s)

/-- The functions of the module of `s` that have the name `name`: the number of
`FuncOp`s with that name among the operations of the module body. -/
def declarationsNamed (s : Importer) (name : StringRef) : Nat :=
  ((((s.blocks[s.moduleBody]?).map Block.operations).getD []).filter (fun op : Nat =>
    match s.ops[op]? with
    | some (.FuncOp n _ _) => n == name
    | _ => false)).length

end Examples

end Polymer

/-! ## Further notions used in the statements -/

namespace Polymer

/-- The statement list without its assignments, guards, blocks and other
unhandled nodes, at every nesting level of for-node bodies. -/
def clast_stmt.strip : clast_stmt → clast_stmt
  | .null => .null
  | .stmt_root next => .stmt_root next.strip
  | .stmt_ass next => next.strip
  | .stmt_user number next => .stmt_user number next.strip
  | .stmt_for iterator LB UB stride body next =>
    .stmt_for iterator LB UB stride body.strip next.strip
  | .stmt_guard next => next.strip
  | .stmt_block next => next.strip
  | .stmt_other next => next.strip

end Polymer

namespace Polymer

/-- The symbol slots of an affine expression that may be unset. -/
def slotsOf (affExpr : Option AffineExpr) : List Nat :=
  (affExpr.map AffineExpr.symbols).getD []

/-- The values the induction variable of an `affine.for` with the constant
bounds `lb` and `ub` and the step `step` takes: `lb`, `lb + step`,
`lb + 2 * step`, ... as long as the value is strictly below `ub`. -/
def affineForIterations (lb ub step : Int) : List Int :=
  ((List.range (ub - lb).toNat).map (fun k : Nat => lb + k * step)).filter (fun x => x < ub)

/-- The values the iterator of a clast for-node with the constant bounds `L` and
`U` and the stride `stride` takes: `L`, `L + stride`, `L + 2 * stride`, ... as
long as the value is at most `U` (the upper bound of a clast loop is
inclusive). -/
def clastForIterations (L U stride : Int) : List Int :=
  ((List.range ((U - L).toNat + 1)).map (fun k : Nat => L + k * stride)).filter (fun x => x ≤ U)

/-- The iterations of an `AffineForOp` whose two bound maps are constants. -/
def Operation.constantLoopIterations : Operation → Option (List Int)
  | .AffineForOp _ lbMap _ ubMap step _ =>
    match lbMap.result, ubMap.result with
    | .constant lb, .constant ub => some (affineForIterations lb ub step)
    | _, _ => none
  | _ => none

/-- The operations of the block `blockId` of a state, in their order. -/
def blockOperations (s : Importer) (blockId : Nat) : List Operation :=
  ((s.blocks[blockId]?.map Block.operations).getD []).filterMap (fun op : Nat => s.ops[op]?)

namespace Examples

/-- The scop of the round trip: one statement `S0(A0, i)`, no symbols. -/
def roundTripScop : OslScop := scopOf ["S0(A0, i)"] []

/-- The clast of the round trip: the root, then `for (i = 0; i <= 9; i += 1)`
with the user statement number 1 as its body. -/
def roundTripList : clast_stmt :=
  .stmt_root (loop (constant 0) (constant 9) (.stmt_user 1 .null) .null)

/-- The state after the import of the round trip. -/
def roundTripState : Importer :=
  ((run roundTripScop roundTripList).map Prod.snd).getD Importer.fresh

end Examples

end Polymer

namespace Polymer

/-- How a run of the builder from `b` to `b2` changes the symbol slots of the
affine expression, `before` being the slots of the expression on entry (and, in
the loop of a sum, also those of `currExpr`) and `after` those on exit: the
dimension names are unchanged, the list of symbol names does not shrink, every
slot of the result is an earlier slot or the slot of a name appended by the run,
and the slot of every name appended by the run occurs in the result. -/
def SlotsGrow (b b2 : AffineExprBuilder) (before after : List Nat) : Prop :=
  b2.dimNames = b.dimNames ∧ b.symbolNames.length ≤ b2.symbolNames.length ∧
  (∀ x ∈ after, x ∈ before ∨ (b.symbolNames.length ≤ x ∧ x < b2.symbolNames.length)) ∧
  (∀ x, b.symbolNames.length ≤ x → x < b2.symbolNames.length → x ∈ after)

end Polymer

namespace Polymer
namespace Examples

/-- What `getAffineLoopBound` returns for the bound `e` with empty operands in
the state `s`, or failure in `s` when it is undefined. -/
def boundOutcome (scop : OslScop) (e : clast_expr) (s : Importer) :
    LogicalResult × Importer × List Value × Option AffineMap :=
  (Importer.getAffineLoopBound scop e [] none s).getD (LogicalResult.failure, s, [], none)

/-- The bound `n + n`, in which the name `n` occurs twice. -/
def doubledName : clast_expr :=
  .expr_red .clast_red_sum (.cons (.expr_term 1 (name "n")) (.cons (.expr_term 1 (name "n")) .nil))

end Examples
end Polymer

namespace Polymer

/-- The type of a value, `Value::getType()`: the type of the block argument in
its block, or the result type of the call that defines the result. -/
def Importer.typeOf (s : Importer) : Value → Option MLIRType
  | .blockArgument blockId index => (s.blocks[blockId]?).bind (fun blk => blk.arguments[index]?)
  | .opResult op index =>
    match s.ops[op]? with
    | some (.CallOp _ _ resultTypes) => resultTypes[index]?
    | _ => none

/-- The types of the operands of the operation `op` when it is a call. -/
def Importer.callOperandTypes (s : Importer) (op : Nat) : Option (List (Option MLIRType)) :=
  match s.ops[op]? with
  | some (.CallOp _ operands _) => some (operands.map s.typeOf)
  | _ => none

/-- The parameter types that the operation `op` declares when it is a function. -/
def Importer.declaredInputs (s : Importer) (op : Nat) : Option (List (Option MLIRType)) :=
  match s.ops[op]? with
  | some (.FuncOp _ type _) => some (type.inputs.map some)
  | _ => none

end Polymer

namespace Polymer

/-- The result-argument branch of the caller-argument loop from
`dyn_cast<mlir::CallOp>(srcOp)` to the end of `if (srcCallee.getNumResults() == 0)`,
for the operation `srcOp` that the symbol table gave: the state in which
`srcOp->getResult(0)` is taken next.  `none` is undefined behaviour (the
operation is not a call, its callee is not in `calleeMap` or is not a
function). -/
def Importer.widenSource (s : Importer) (srcOp : Nat) : Option Importer :=
  match s.ops[srcOp]? with
  | some (.CallOp callee _ _) =>
    match s.calleeMap.lookup callee with
    | none => none
    | some srcCallee =>
      match s.ops[srcCallee]? with
      | some (.FuncOp _ type _) => some (s.widenCallee srcCallee type)
      | _ => none
  | _ => none

namespace Examples

end Examples
end Polymer

namespace Polymer

/-- The operation has no result and, when it is a function, declares none. -/
def Operation.noResult : Operation → Bool
  | .CallOp _ _ resultTypes => resultTypes.isEmpty
  | .FuncOp _ type _ => type.results.isEmpty
  | _ => true

/-- No call of the state has a result and no function of the state declares
one. -/
def Importer.NoResults (s : Importer) : Prop :=
  ∀ op ∈ s.ops, op.noResult = true

end Polymer

/-! # Theorems -/

namespace Polymer

/-! ## The statement body reader -/

namespace Importer

theorem readCalleeName_append (name rest acc : StringRef) (h : '(' ∉ name) :
    readCalleeName (name ++ '(' :: rest) acc = ('(' :: rest, acc ++ name) := by
  induction name generalizing acc with
  | nil => simp [readCalleeName]
  | cons c cs ih =>
    have hc : c ≠ '(' := fun e => h (by simp [e])
    have hcs : '(' ∉ cs := fun e => h (by simp [e])
    simp [readCalleeName, hc, ih _ hcs]

theorem readCalleeName_no_paren (body acc : StringRef) (h : '(' ∉ body) :
    readCalleeName body acc = ([], acc ++ body) := by
  induction body generalizing acc with
  | nil => simp [readCalleeName]
  | cons c cs ih =>
    have hc : c ≠ '(' := fun e => h (by simp [e])
    have hcs : '(' ∉ cs := fun e => h (by simp [e])
    simp [readCalleeName, hc, ih _ hcs]

theorem readArgs_token (t rest arg : StringRef) (args : List StringRef) (d : Char)
    (hd : d = ',' ∨ d = ')') (h1 : ',' ∉ t) (h2 : ')' ∉ t) :
    readArgs (t ++ d :: rest) arg args =
      if rest.isEmpty then args ++ [arg ++ stripSpaces t]
      else readArgs rest [] (args ++ [arg ++ stripSpaces t]) := by
  induction t generalizing arg with
  | nil =>
    rcases hd with rfl | rfl <;> simp [readArgs, stripSpaces]
  | cons c cs ih =>
    have hc1 : c ≠ ',' := fun e => h1 (by simp [e])
    have hc2 : c ≠ ')' := fun e => h2 (by simp [e])
    have hcs1 : ',' ∉ cs := fun e => h1 (by simp [e])
    have hcs2 : ')' ∉ cs := fun e => h2 (by simp [e])
    by_cases hsp : c = ' '
    · subst hsp
      simp [readArgs, ih _ hcs1 hcs2, stripSpaces]
    · simp [readArgs, hc1, hc2, hsp, ih _ hcs1 hcs2, stripSpaces, List.filter_cons]

theorem readArgs_tokens (tokens : List StringRef) (args : List StringRef)
    (hne : tokens ≠ []) (h : ∀ t ∈ tokens, ',' ∉ t ∧ ')' ∉ t) :
    readArgs (List.intercalate [','] tokens ++ [')']) [] args =
      args ++ tokens.map stripSpaces := by
  induction tokens generalizing args with
  | nil => exact absurd rfl hne
  | cons t ts ih =>
    cases ts with
    | nil =>
      have := readArgs_token t [] [] args ')' (Or.inr rfl) (h t (by simp)).1 (h t (by simp)).2
      simpa [List.intercalate] using this
    | cons t2 ts2 =>
      have h3 : List.intercalate [','] (t :: t2 :: ts2) ++ [')'] =
          t ++ ',' :: (List.intercalate [','] (t2 :: ts2) ++ [')']) := by
        simp [List.intercalate, List.intersperse]
      rw [h3, readArgs_token t _ [] args ',' (Or.inl rfl) (h t (by simp)).1 (h t (by simp)).2]
      have hne2 : (List.intercalate [','] (t2 :: ts2) ++ [')']).isEmpty = false := by
        simp
      rw [hne2]
      simp only [Bool.false_eq_true, if_false]
      rw [ih _ (by simp) (fun t ht => h t (by simp [ht]))]
      simp

/-- C6: for a body text `name(t1,...,tn)` with `n >= 1`, a name without `(` and
tokens without `,` and `)`, `parseUserStmtBody` returns success, the callee name
`name` and the tokens in their order, each with its space characters removed. -/
theorem parseUserStmtBody_wellformed (name : StringRef) (tokens : List StringRef)
    (hname : '(' ∉ name) (hne : tokens ≠ [])
    (htok : ∀ t ∈ tokens, ',' ∉ t ∧ ')' ∉ t) :
    parseUserStmtBody (name ++ ['('] ++ List.intercalate [','] tokens ++ [')']) [] [] =
      (LogicalResult.success, name, tokens.map (fun t => t.filter (fun c => c != ' '))) := by
  have h1 : name ++ ['('] ++ List.intercalate [','] tokens ++ [')'] =
      name ++ '(' :: (List.intercalate [','] tokens ++ [')']) := by simp
  have h2 := readArgs_tokens tokens [] hne htok
  simp only [parseUserStmtBody, h1, readCalleeName_append _ _ _ hname, List.drop_succ_cons, List.drop_zero]
  simp [h2, stripSpaces]

/-- C7, amended: for a body text without an opening parenthesis,
`parseUserStmtBody` returns success, the whole text as the callee name and no
argument. -/
theorem parseUserStmtBody_no_paren (body : StringRef) (h : '(' ∉ body) :
    parseUserStmtBody body [] [] = (LogicalResult.success, body, []) := by
  simp [parseUserStmtBody, readCalleeName_no_paren _ _ h]

end Importer

/-! ## The affine expression builder -/

namespace AffineExprBuilder

theorem process_expr_term (scop : OslScop) (val : Int) (var : clast_expr)
    (b : AffineExprBuilder) (affExpr : Option AffineExpr) :
    process scop (.expr_term val var) b affExpr = process_term scop val var b affExpr := by
  cases var <;> simp [process, process_term]

theorem process_expr_red (scop : OslScop) (type : clast_red_type) (elts : clast_elts)
    (b : AffineExprBuilder) (affExpr : Option AffineExpr) :
    process scop (.expr_red type elts) b affExpr =
      process_reduction scop type elts b affExpr := by
  cases elts with
  | nil => cases type <;> simp [process, process_reduction, processSumReduction]
  | cons elt rest =>
    cases rest with
    | nil => simp [process, process_reduction]
    | cons e2 r2 =>
      cases type <;> simp [process, process_reduction, processSumReduction]
      split
      · split <;> simp
      · simp

theorem strtoll_of_range (c : Int) (h : INT64_MIN ≤ c ∧ c ≤ INT64_MAX) : strtoll c = c := by
  unfold strtoll
  rw [if_neg (not_lt.mpr h.1), if_neg (not_lt.mpr h.2)]

theorem process_simple_term (scop : OslScop) (env : StringRef → Int) (t : clast_expr)
    (hfrag : t.isSimpleTerm = true) (hsym : ∀ n ∈ t.names, scop.isSymbol n = true)
    (hcoef : ∀ c ∈ t.coefficients, c = 1)
    (hconst : ∀ c ∈ t.constants, INT64_MIN ≤ c ∧ c ≤ INT64_MAX)
    (b : AffineExprBuilder) (cur : Option AffineExpr) :
    ∃ a, process scop t b cur =
        some (.success, { b with symbolNames := b.symbolNames ++ t.names }, some a) ∧
      ∀ M, a.eval (slotEnv env (b.symbolNames ++ t.names ++ M)) (fun _ => 0) = t.value env := by
  match t, hfrag with
  | .expr_term val .null, _ =>
    have hr := strtoll_of_range val (hconst val (by simp [clast_expr.constants]))
    refine ⟨.constant val, ?_, ?_⟩
    · simp [process, getI64, failed, hr, clast_expr.names]
    · intro M; simp [AffineExpr.eval, clast_expr.value]
  | .expr_term val (.expr_name n), _ =>
    have hs : scop.isSymbol n = true := hsym n (by simp [clast_expr.names])
    have hc : val = 1 := hcoef val (by simp [clast_expr.coefficients])
    refine ⟨.symbol b.symbolNames.length, ?_, ?_⟩
    · simp [process, process_name, hs, clast_expr.names]
    · intro M
      simp [AffineExpr.eval, clast_expr.value, slotEnv, clast_expr.names, hc,
        List.getD_eq_getElem?_getD, List.getElem_append_right]


theorem sumLoop_simple_terms (scop : OslScop) (env : StringRef → Int) :
    ∀ (rest : clast_elts), rest.all clast_expr.isSimpleTerm = true →
    (∀ n ∈ rest.names, scop.isSymbol n = true) →
    (∀ c ∈ rest.coefficients, c = 1) →
    (∀ c ∈ rest.constants, INT64_MIN ≤ c ∧ c ≤ INT64_MAX) →
    ∀ (b : AffineExprBuilder) (acc : AffineExpr) (cur : Option AffineExpr) (v : Int),
    (∀ M, acc.eval (slotEnv env (b.symbolNames ++ M)) (fun _ => 0) = v) →
    ∃ a, sumLoop scop rest b (some acc) cur =
        some (.success, { b with symbolNames := b.symbolNames ++ rest.names }, some a) ∧
      ∀ M, a.eval (slotEnv env (b.symbolNames ++ rest.names ++ M)) (fun _ => 0) =
        v + (rest.values env).sum
  | .nil, _, _, _, _, b, acc, cur, v, hacc => by
    refine ⟨acc, ?_, ?_⟩
    · simp [sumLoop, clast_elts.names]
    · intro M; simpa [clast_elts.names, clast_elts.values] using hacc M
  | .cons elt rest, hfrag, hsym, hcoef, hconst, b, acc, cur, v, hacc => by
    simp only [clast_elts.all, Bool.and_eq_true] at hfrag
    simp only [clast_elts.names, List.mem_append] at hsym
    simp only [clast_elts.coefficients, List.mem_append] at hcoef
    simp only [clast_elts.constants, List.mem_append] at hconst
    obtain ⟨a1, h1, h1v⟩ := process_simple_term scop env elt hfrag.1
      (fun n hn => hsym n (Or.inl hn)) (fun c hc => hcoef c (Or.inl hc))
      (fun c hc => hconst c (Or.inl hc)) b cur
    have hterm : elt.isTerm = true := by
      cases elt <;> simp_all [clast_expr.isSimpleTerm, clast_expr.isTerm]
    obtain ⟨a, h2, h2v⟩ := sumLoop_simple_terms scop env rest hfrag.2
      (fun n hn => hsym n (Or.inr hn))
      (fun c hc => hcoef c (Or.inr hc)) (fun c hc => hconst c (Or.inr hc))
      { b with symbolNames := b.symbolNames ++ elt.names } (AffineExpr.add acc a1) (some a1)
      (v + elt.value env) (by
        intro M
        have e1 := hacc (elt.names ++ M)
        have e2 := h1v M
        simp only [List.append_assoc] at e1 e2 ⊢
        simp [AffineExpr.eval, e1, e2])
    refine ⟨a, ?_, ?_⟩
    · simp only [sumLoop, hterm, if_true, h1, AffineExpr.plus]
      simpa [clast_elts.names, List.append_assoc] using h2
    · intro M
      have := h2v M
      simp only [clast_elts.names, clast_elts.values, List.sum_cons, List.append_assoc] at this ⊢
      rw [this]; ring

/-- C5, amended: for a bound expression built only from a name node, a constant
term, a term that wraps a name, or a sum reduction of such terms, in which every
name is a symbol of the scop, every coefficient of a name is 1, every constant
is a 64-bit integer and a sum has at least one element, `process` succeeds, the
symbol names it discovers are the names of the expression in order, and the
affine expression, with slot `k` set to the value of `symbolNames[k]`, has the
arithmetic value of the clast expression. -/
theorem process_simple_bound (scop : OslScop) (env : StringRef → Int) (e : clast_expr)
    (hfrag : e.isSimpleBound = true)
    (hsym : ∀ n ∈ e.names, scop.isSymbol n = true)
    (hcoef : ∀ c ∈ e.coefficients, c = 1)
    (hconst : ∀ c ∈ e.constants, INT64_MIN ≤ c ∧ c ≤ INT64_MAX)
    (hne : e ≠ .expr_red .clast_red_sum .nil) :
    ∃ b a, process scop e reset none = some (.success, b, some a) ∧
      b.symbolNames = e.names ∧
      a.eval (slotEnv env b.symbolNames) (fun _ => 0) = e.value env := by
  match e, hfrag with
  | .expr_name n, _ =>
    have hs : scop.isSymbol n = true := hsym n (by simp [clast_expr.names])
    refine ⟨{ reset with symbolNames := reset.symbolNames ++ [n] },
      AffineExpr.symbol reset.symbolNames.length, ?_, ?_, ?_⟩
    · simp only [process, process_name, hs, if_true]
    · simp [reset, clast_expr.names]
    · simp [reset, AffineExpr.eval, slotEnv, clast_expr.value]
  | .expr_term val .null, h =>
    obtain ⟨a, h1, h1v⟩ := process_simple_term scop env (.expr_term val .null) h hsym hcoef hconst
      reset none
    refine ⟨_, a, h1, by simp [reset], ?_⟩
    simpa using h1v []
  | .expr_term val (.expr_name n), h =>
    obtain ⟨a, h1, h1v⟩ := process_simple_term scop env (.expr_term val (.expr_name n)) h hsym
      hcoef hconst reset none
    refine ⟨_, a, h1, by simp [reset], ?_⟩
    simpa using h1v []
  | .expr_red .clast_red_sum .nil, _ => exact absurd rfl hne
  | .expr_red .clast_red_sum (.cons elt rest), h =>
    simp only [clast_expr.isSimpleBound, clast_elts.all, Bool.and_eq_true] at h
    simp only [clast_expr.names, clast_elts.names, List.mem_append] at hsym
    simp only [clast_expr.coefficients, clast_elts.coefficients, List.mem_append] at hcoef
    simp only [clast_expr.constants, clast_elts.constants, List.mem_append] at hconst
    obtain ⟨a1, h1, h1v⟩ := process_simple_term scop env elt h.1
      (fun n hn => hsym n (Or.inl hn)) (fun c hc => hcoef c (Or.inl hc))
      (fun c hc => hconst c (Or.inl hc)) reset none
    have hterm : elt.isTerm = true := by
      cases elt <;> simp_all [clast_expr.isSimpleTerm, clast_expr.isTerm]
    obtain ⟨a, h2, h2v⟩ := sumLoop_simple_terms scop env rest h.2
      (fun n hn => hsym n (Or.inr hn))
      (fun c hc => hcoef c (Or.inr hc)) (fun c hc => hconst c (Or.inr hc))
      { reset with symbolNames := reset.symbolNames ++ elt.names } a1 none
      (elt.value env) (by intro M; simpa [List.append_assoc] using h1v M)
    refine ⟨{ symbolNames := reset.symbolNames ++ elt.names ++ rest.names,
              dimNames := reset.dimNames }, a, ?_, ?_, ?_⟩
    · cases rest with
      | nil =>
        simp only [sumLoop] at h2
        simp only [process, h1]
        simp only [Option.some.injEq, Prod.mk.injEq, true_and] at h2
        rw [h2.1, h2.2]
      | cons e2 r2 =>
        simp only [process, hterm, if_true, h1, h2]
    · simp [reset, clast_expr.names, clast_elts.names]
    · have := h2v []
      simp only [List.append_nil] at this
      simpa [clast_expr.value, redValue, clast_elts.values] using this

end AffineExprBuilder


/-! ### Tables -/

theorem length_updateOp (ops : List Operation) (i : Nat) (f : Operation → Operation) :
    (updateOp ops i f).length = ops.length := by
  induction ops generalizing i with
  | nil => simp [updateOp]
  | cons o os ih => cases i <;> simp [updateOp, ih]

theorem getElem?_updateBlock (blocks : List Block) (i j : Nat) (f : Block → Block) :
    (updateBlock blocks i f)[j]? = if j = i then blocks[j]?.map f else blocks[j]? := by
  induction blocks generalizing i j with
  | nil => simp [updateBlock]
  | cons b bs ih =>
    cases i with
    | zero => cases j <;> simp [updateBlock]
    | succ i => cases j <;> simp [updateBlock, ih]

theorem getElem?_updateOp (ops : List Operation) (i j : Nat) (f : Operation → Operation) :
    (updateOp ops i f)[j]? = if j = i then ops[j]?.map f else ops[j]? := by
  induction ops generalizing i j with
  | nil => simp [updateOp]
  | cons o os ih =>
    cases i with
    | zero => cases j <;> simp [updateOp]
    | succ i => cases j <;> simp [updateOp, ih]

theorem widened_refl (o : Operation) : Operation.Widened o o := Or.inl rfl

theorem widened_trans {o1 o2 o3 : Operation} (h12 : Operation.Widened o1 o2)
    (h23 : Operation.Widened o2 o3) : Operation.Widened o1 o3 := by
  rcases h12 with rfl | ⟨n, t1, t2, b, rfl, rfl, e12⟩
  · exact h23
  · rcases h23 with rfl | ⟨n2, t2b, t3, b2, e, rfl, e23⟩
    · exact Or.inr ⟨n, t1, t2, b, rfl, rfl, e12⟩
    · cases e
      exact Or.inr ⟨n, t1, t3, b, rfl, rfl, e23.trans e12⟩

theorem forall2_widened_refl (ops : List Operation) :
    List.Forall₂ Operation.Widened ops ops := by
  induction ops with
  | nil => exact List.Forall₂.nil
  | cons o os ih => exact List.Forall₂.cons (widened_refl o) ih

theorem forall2_widened_trans {l1 l2 l3 : List Operation}
    (h12 : List.Forall₂ Operation.Widened l1 l2) (h23 : List.Forall₂ Operation.Widened l2 l3) :
    List.Forall₂ Operation.Widened l1 l3 := by
  induction h12 generalizing l3 with
  | nil => cases h23; exact List.Forall₂.nil
  | cons h _ ih =>
    cases h23 with
    | cons h2 t2 => exact List.Forall₂.cons (widened_trans h h2) (ih t2)

theorem forall2_widened_updateOp (ops : List Operation) (i : Nat) (f : Operation → Operation)
    (h : ∀ o, ops[i]? = some o → Operation.Widened o (f o)) :
    List.Forall₂ Operation.Widened ops (updateOp ops i f) := by
  induction ops generalizing i with
  | nil => exact List.Forall₂.nil
  | cons o os ih =>
    cases i with
    | zero => exact List.Forall₂.cons (h o (by simp)) (forall2_widened_refl os)
    | succ i =>
      exact List.Forall₂.cons (widened_refl o) (ih i (fun o2 h2 => h o2 (by simpa using h2)))

theorem forall2_widened_getElem? {l1 l2 : List Operation}
    (h : List.Forall₂ Operation.Widened l1 l2) (i : Nat) (o : Operation) (ho : l1[i]? = some o) :
    ∃ o2, l2[i]? = some o2 ∧ Operation.Widened o o2 := by
  induction h generalizing i with
  | nil => simp at ho
  | cons hd _ ih =>
    cases i with
    | zero => simp at ho; subst ho; exact ⟨_, by simp, hd⟩
    | succ i => simpa using ih i (by simpa using ho)

theorem forall2_widened_getElem?_rev {l1 l2 : List Operation}
    (h : List.Forall₂ Operation.Widened l1 l2) (i : Nat) (o2 : Operation) (ho : l2[i]? = some o2) :
    ∃ o, l1[i]? = some o ∧ Operation.Widened o o2 := by
  induction h generalizing i with
  | nil => simp at ho
  | cons hd _ ih =>
    cases i with
    | zero => simp at ho; subst ho; exact ⟨_, by simp, hd⟩
    | succ i => simpa using ih i (by simpa using ho)

/-! ### The frame of the caller-argument loop -/

theorem argsFrame_refl (s : Importer) : ArgsFrame s s :=
  { ops := forall2_widened_refl s.ops, blockOps := fun _ => rfl, insertBlock := rfl,
    insertPt := rfl, moduleBody := rfl, func := rfl, symNameToArg := rfl, calleeMap := rfl,
    symOps := rfl, valuesKeep := fun _ _ h => h, valuesOther := fun _ _ => rfl }

theorem argsFrame_trans {s1 s2 s3 : Importer} (h12 : ArgsFrame s1 s2) (h23 : ArgsFrame s2 s3) :
    ArgsFrame s1 s3 :=
  { ops := forall2_widened_trans h12.ops h23.ops
    blockOps := fun b => (h23.blockOps b).trans (h12.blockOps b)
    insertBlock := h23.insertBlock.trans h12.insertBlock
    insertPt := h23.insertPt.trans h12.insertPt
    moduleBody := h23.moduleBody.trans h12.moduleBody
    func := h23.func.trans h12.func
    symNameToArg := h23.symNameToArg.trans h12.symNameToArg
    calleeMap := h23.calleeMap.trans h12.calleeMap
    symOps := h23.symOps.trans h12.symOps
    valuesKeep := fun n v h => h23.valuesKeep n v (h12.valuesKeep n v h)
    valuesOther := fun n h => (h23.valuesOther n h).trans (h12.valuesOther n h) }

namespace Importer

theorem widenCallee_frame (s : Importer) (srcCallee : Nat) (name : StringRef)
    (type : FunctionType) (body : Option Nat)
    (hcallee : s.ops[srcCallee]? = some (Operation.FuncOp name type body)) :
    ArgsFrame s (widenCallee s srcCallee type) := by
  unfold widenCallee
  split
  · exact
      { ops := forall2_widened_updateOp _ _ _ (fun o ho => by
          rw [hcallee] at ho
          simp only [Option.some.injEq] at ho
          subst ho
          exact Or.inr ⟨name, type, _, body, rfl, rfl, rfl⟩)
        blockOps := fun _ => rfl, insertBlock := rfl,
        insertPt := rfl, moduleBody := rfl, func := rfl, symNameToArg := rfl,
        calleeMap := rfl, symOps := rfl, valuesKeep := fun _ _ h => h,
        valuesOther := fun _ _ => rfl }
  · exact argsFrame_refl _

theorem resultArg_frame (s s2 : Importer) (arg : StringRef) (r : LogicalResult)
    (v : Option Value) (h : resultArg s arg = some (r, s2, v)) : ArgsFrame s s2 := by
  unfold resultArg at h
  cases h1 : s.symTable.getOperation arg with
  | none =>
    simp only [h1, Option.some.injEq, Prod.mk.injEq] at h
    obtain ⟨-, rfl, -⟩ := h
    exact argsFrame_refl _
  | some srcOp =>
    simp only [h1] at h
    cases h2 : s.ops[srcOp]? with
    | none => simp [h2] at h
    | some op =>
      cases op with
      | CallOp callee operands resultTypes =>
        simp only [h2] at h
        cases h3 : s.calleeMap.lookup callee with
        | none => simp [h3] at h
        | some srcCallee =>
          simp only [h3] at h
          cases h4 : s.ops[srcCallee]? with
          | none => simp [h4] at h
          | some op2 =>
            cases op2 with
            | FuncOp name type body =>
              simp only [h4] at h
              by_cases h5 : 0 < resultTypes.length
              · simp only [h5, if_true, Option.some.injEq, Prod.mk.injEq] at h
                obtain ⟨-, rfl, -⟩ := h
                exact widenCallee_frame s srcCallee name type body h4
              · simp [h5] at h
            | _ => simp [h4] at h
      | _ => simp [h2] at h

theorem callerArg_frame (numArgs entry i : Nat) (arg : StringRef) (s s2 : Importer)
    (r : LogicalResult) (v : Option Value)
    (h : callerArg numArgs entry i arg s = some (r, s2, v)) : ArgsFrame s s2 := by
  unfold callerArg at h
  split at h
  · rename_i hmem
    split at h
    · simp only [Option.some.injEq, Prod.mk.injEq] at h
      obtain ⟨-, rfl, -⟩ := h
      exact argsFrame_refl _
    · rename_i hnone
      simp only [Option.some.injEq, Prod.mk.injEq] at h
      obtain ⟨-, rfl, -⟩ := h
      refine
        { ops := forall2_widened_refl _, blockOps := ?_, insertBlock := rfl,
          insertPt := rfl, moduleBody := rfl, func := rfl, symNameToArg := rfl,
          calleeMap := rfl, symOps := rfl, valuesKeep := ?_, valuesOther := ?_ }
      · intro b
        simp only [addArgument, getElem?_updateBlock]
        split
        · cases s.blocks[b]? <;> simp
        · rfl
      · intro name v hv
        simp only [OslSymbolTable.getValue, OslSymbolTable.setValue, addArgument,
          List.lookup_cons] at hv ⊢
        by_cases hna : name = arg
        · subst hna
          simp only [OslSymbolTable.getValue] at hnone
          rw [hnone] at hv
          exact absurd hv (by simp)
        · have : (name == arg) = false := by simpa using hna
          rw [this]
          exact hv
      · intro name hname
        simp only [OslSymbolTable.getValue, OslSymbolTable.setValue, addArgument,
          List.lookup_cons]
        have : (name == arg) = false := by
          have hne : name ≠ arg := fun e => by subst e; simp [hmem] at hname
          simpa using hne
        rw [this]
  · split at h
    · exact resultArg_frame _ _ _ _ _ h
    · split at h
      · simp only [Option.some.injEq, Prod.mk.injEq] at h
        obtain ⟨-, rfl, -⟩ := h
        exact argsFrame_refl _
      · split at h <;>
        · simp only [Option.some.injEq, Prod.mk.injEq] at h
          obtain ⟨-, rfl, -⟩ := h
          exact argsFrame_refl _

theorem callerArgsLoop_frame (numArgs entry : Nat) :
    ∀ (names : List StringRef) (i : Nat) (s : Importer) (acc : List Value)
      (r : LogicalResult) (s2 : Importer) (out : List Value),
      callerArgsLoop numArgs entry i names s acc = some (r, s2, out) → ArgsFrame s s2 := by
  intro names
  induction names with
  | nil =>
    intro i s acc r s2 out h
    simp only [callerArgsLoop, Option.some.injEq, Prod.mk.injEq] at h
    obtain ⟨-, rfl, -⟩ := h
    exact argsFrame_refl _
  | cons name rest ih =>
    intro i s acc r s2 out h
    simp only [callerArgsLoop] at h
    split at h
    · exact absurd h (by simp)
    · rename_i s1 _ hstep
      simp only [Option.some.injEq, Prod.mk.injEq] at h
      obtain ⟨-, rfl, -⟩ := h
      exact callerArg_frame _ _ _ _ _ _ _ _ hstep
    · exact absurd h (by simp)
    · rename_i s1 val hstep
      exact argsFrame_trans (callerArg_frame _ _ _ _ _ _ _ _ hstep) (ih _ _ _ _ _ _ h)

theorem resultArg_resolves (s s2 : Importer) (arg : StringRef) (v : Value)
    (h : resultArg s arg = some (.success, s2, some v)) :
    ∃ op, s.symTable.getOperation arg = some op ∧ v = Value.opResult op 0 := by
  unfold resultArg at h
  cases h1 : s.symTable.getOperation arg with
  | none => simp [h1] at h
  | some srcOp =>
    simp only [h1] at h
    cases h2 : s.ops[srcOp]? with
    | none => simp [h2] at h
    | some op =>
      cases op with
      | CallOp callee operands resultTypes =>
        simp only [h2] at h
        cases h3 : s.calleeMap.lookup callee with
        | none => simp [h3] at h
        | some srcCallee =>
          simp only [h3] at h
          cases h4 : s.ops[srcCallee]? with
          | none => simp [h4] at h
          | some op2 =>
            cases op2 with
            | FuncOp name type body =>
              simp only [h4] at h
              by_cases h5 : 0 < resultTypes.length
              · simp only [h5, if_true, Option.some.injEq, Prod.mk.injEq] at h
                exact ⟨srcOp, rfl, h.2.2.symm⟩
              · simp [h5] at h
            | _ => simp [h4] at h
      | _ => simp [h2] at h

theorem callerArg_resolves (numArgs entry i : Nat) (arg : StringRef) (s s2 : Importer)
    (v : Value) (h : callerArg numArgs entry i arg s = some (.success, s2, some v)) :
    ArgResolves s s2 arg v := by
  unfold callerArg at h
  unfold ArgResolves
  by_cases hmem : isMemrefArg arg = true
  · simp only [hmem, if_true] at h ⊢
    cases hv : s.symTable.getValue arg with
    | some memref =>
      simp only [hv, Option.some.injEq, Prod.mk.injEq, true_and] at h
      obtain ⟨rfl, rfl⟩ := h
      exact hv
    | none =>
      simp only [hv, Option.some.injEq, Prod.mk.injEq, true_and] at h
      obtain ⟨rfl, rfl⟩ := h
      simp [OslSymbolTable.getValue, OslSymbolTable.setValue, List.lookup_cons]
  · have hmem2 : isMemrefArg arg = false := by simpa using hmem
    simp only [hmem2, Bool.false_eq_true, if_false] at h ⊢
    by_cases hres : isResultArg arg = true
    · simp only [hres, if_true] at h ⊢
      exact resultArg_resolves _ _ _ _ h
    · have hres2 : isResultArg arg = false := by simpa using hres
      simp only [hres2, Bool.false_eq_true, if_false] at h ⊢
      cases hv : s.symTable.getValue arg with
      | some val =>
        simp only [hv, Option.some.injEq, Prod.mk.injEq, true_and] at h
        simp [h.2]
      | none =>
        simp only [hv] at h
        cases hl : s.symNameToArg.lookup arg with
        | some val =>
          simp only [hl, Option.some.injEq, Prod.mk.injEq, true_and] at h
          simp [h.2]
        | none => simp [hl] at h

theorem argResolves_mono {s0 s1 s2 s3 : Importer} {name : StringRef} {v : Value}
    (h01 : ArgsFrame s0 s1) (h : ArgResolves s1 s2 name v) (h23 : ArgsFrame s2 s3) :
    ArgResolves s0 s3 name v := by
  unfold ArgResolves at h ⊢
  by_cases hmem : isMemrefArg name = true
  · simp only [hmem, if_true] at h ⊢
    exact h23.valuesKeep _ _ h
  · have hmem2 : isMemrefArg name = false := by simpa using hmem
    simp only [hmem2, Bool.false_eq_true, if_false] at h ⊢
    by_cases hres : isResultArg name = true
    · simp only [hres, if_true] at h ⊢
      obtain ⟨op, h1, h2⟩ := h
      refine ⟨op, ?_, h2⟩
      simpa [OslSymbolTable.getOperation, h01.symOps] using h1
    · have hres2 : isResultArg name = false := by simpa using hres
      simp only [hres2, Bool.false_eq_true, if_false] at h ⊢
      rw [h01.valuesOther name hmem2, h01.symNameToArg] at h
      exact h

theorem callerArgsLoop_resolves (numArgs entry : Nat) :
    ∀ (names : List StringRef) (i : Nat) (s : Importer) (acc : List Value)
      (s2 : Importer) (out : List Value),
      callerArgsLoop numArgs entry i names s acc = some (.success, s2, out) →
      ∃ vals, out = acc ++ vals ∧ List.Forall₂ (ArgResolves s s2) names vals := by
  intro names
  induction names with
  | nil =>
    intro i s acc s2 out h
    simp only [callerArgsLoop, Option.some.injEq, Prod.mk.injEq, true_and] at h
    exact ⟨[], by simp [h.2], List.Forall₂.nil⟩
  | cons name rest ih =>
    intro i s acc s2 out h
    simp only [callerArgsLoop] at h
    split at h
    · exact absurd h (by simp)
    · simp at h
    · exact absurd h (by simp)
    · rename_i s1 val hstep
      obtain ⟨vals, hout, hall⟩ := ih _ _ _ _ _ h
      have hf1 := callerArg_frame _ _ _ _ _ _ _ _ hstep
      have hf2 := callerArgsLoop_frame _ _ _ _ _ _ _ _ _ h
      refine ⟨val :: vals, by simp [hout], List.Forall₂.cons ?_ ?_⟩
      · exact argResolves_mono (argsFrame_refl _) (callerArg_resolves _ _ _ _ _ _ _ hstep) hf2
      · exact hall.imp (fun _ _ hr => argResolves_mono hf1 hr (argsFrame_refl _))

theorem unresolved_frame {s1 s2 : Importer} {name : StringRef} (hf : ArgsFrame s1 s2)
    (h : Unresolved s1 name) : Unresolved s2 name :=
  ⟨h.1, h.2.1, (hf.valuesOther name h.1).trans h.2.2.1, by rw [hf.symNameToArg]; exact h.2.2.2⟩

theorem callerArg_unresolved (numArgs entry i : Nat) (arg : StringRef) (s : Importer)
    (h : Unresolved s arg) : callerArg numArgs entry i arg s = some (.failure, s, none) := by
  obtain ⟨h1, h2, h3, h4⟩ := h
  simp [callerArg, h1, h2, h3, h4]

theorem callerArgsLoop_unresolved (numArgs entry : Nat) (a : StringRef) :
    ∀ (names : List StringRef) (i : Nat) (s : Importer) (acc : List Value)
      (r : LogicalResult) (s2 : Importer) (out : List Value),
      a ∈ names → Unresolved s a →
      callerArgsLoop numArgs entry i names s acc = some (r, s2, out) → r = .failure := by
  intro names
  induction names with
  | nil => intro i s acc r s2 out ha; simp at ha
  | cons name rest ih =>
    intro i s acc r s2 out ha hun h
    simp only [callerArgsLoop] at h
    split at h
    · exact absurd h (by simp)
    · simp only [Option.some.injEq, Prod.mk.injEq] at h
      exact h.1.symm
    · exact absurd h (by simp)
    · rename_i s1 val hstep
      rcases List.mem_cons.mp ha with rfl | hrest
      · rw [callerArg_unresolved _ _ _ _ _ hun] at hstep
        simp at hstep
      · exact ih _ _ _ _ _ _ hrest
          (unresolved_frame (callerArg_frame _ _ _ _ _ _ _ _ hstep) hun) h

/-! ### The steps of a user statement -/

theorem mem_insertBeforeOp (operations : List Nat) (before op x : Nat) :
    x ∈ insertBeforeOp operations before op ↔ x = op ∨ x ∈ operations := by
  induction operations with
  | nil => simp [insertBeforeOp]
  | cons y ys ih =>
    simp only [insertBeforeOp]
    split
    · simp
    · simp only [List.mem_cons, ih]
      tauto

theorem mem_insertAt (operations : List Nat) (pt : Option Nat) (op x : Nat) :
    x ∈ insertAt operations pt op ↔ x = op ∨ x ∈ operations := by
  cases pt with
  | none => simp [insertAt]; tauto
  | some before => simp [insertAt, mem_insertBeforeOp]

theorem create_blocks (s : Importer) (op : Operation) (b : Nat) (blk : Block)
    (h : s.blocks[b]? = some blk) :
    ∃ blk2, (create s op).2.blocks[b]? = some blk2 ∧ blk2.arguments = blk.arguments ∧
      (∀ x ∈ blk.operations, x ∈ blk2.operations) ∧
      (b = s.insertBlock → s.ops.length ∈ blk2.operations) := by
  simp only [create, getElem?_updateBlock]
  by_cases hb : b = s.insertBlock
  · simp only [hb, if_true]
    rw [← hb, h]
    refine ⟨_, rfl, rfl, ?_, ?_⟩
    · intro x hx; simp [mem_insertAt, hx]
    · intro _; simp [mem_insertAt]
  · simp only [hb, if_false]
    exact ⟨blk, h, rfl, fun _ hx => hx, fun e => False.elim e⟩

theorem declareCallee_spec (s s1 : Importer) (calleeName : StringRef) (args : List StringRef)
    (callee : Nat) (h : declareCallee s calleeName args = some (callee, s1)) :
    callee = s.ops.length ∧
    s1.ops = s.ops ++ [Operation.FuncOp calleeName
      { inputs := calleeArgTypesLoop args.length 0 args, results := [] } none] ∧
    s1.calleeMap = (calleeName, callee) :: s.calleeMap ∧
    s1.symTable = s.symTable ∧ s1.symNameToArg = s.symNameToArg ∧
    s1.func = s.func ∧ s1.moduleBody = s.moduleBody ∧
    s1.insertBlock = s.insertBlock ∧ s1.insertPt = s.insertPt ∧
    ∃ blk, s1.blocks[s.moduleBody]? = some blk ∧ callee ∈ blk.operations := by
  unfold declareCallee at h
  cases hpt : s.getFuncInsertPt with
  | none => simp [hpt] at h
  | some pt =>
    simp only [hpt, Option.some.injEq, Prod.mk.injEq] at h
    obtain ⟨rfl, rfl⟩ := h
    refine ⟨rfl, rfl, rfl, rfl, rfl, rfl, rfl, rfl, rfl, ?_⟩
    have hblk : ∃ blk, s.blocks[s.moduleBody]? = some blk := by
      unfold getFuncInsertPt at hpt
      cases hb : s.blocks[s.moduleBody]? with
      | none => simp [hb] at hpt
      | some blk => exact ⟨blk, rfl⟩
    obtain ⟨blk, hb⟩ := hblk
    obtain ⟨blk2, h1, -, -, h4⟩ := create_blocks
      { s with insertBlock := s.moduleBody, insertPt := some pt }
      (Operation.FuncOp calleeName
        { inputs := calleeArgTypesLoop args.length 0 args, results := [] } none)
      s.moduleBody blk hb
    exact ⟨blk2, h1, h4 rfl⟩

theorem emitCall_spec (s3 s2 : Importer) (calleeName : StringRef) (callee : Nat)
    (callerArgs : List Value) (r : LogicalResult)
    (h : emitCall s3 calleeName callee callerArgs = some (r, s2)) :
    r = .success ∧
    (∃ resultTypes, s2.ops = s3.ops ++ [Operation.CallOp calleeName callerArgs resultTypes]) ∧
    s2.symTable.values = s3.symTable.values ∧
    s2.symTable.operations = (calleeName, s3.ops.length) :: s3.symTable.operations ∧
    s2.calleeMap = s3.calleeMap ∧ s2.symNameToArg = s3.symNameToArg ∧
    s2.moduleBody = s3.moduleBody ∧
    ∀ (b : Nat) (blk : Block), s3.blocks[b]? = some blk →
      ∃ blk2 : Block, s2.blocks[b]? = some blk2 ∧
        ∀ x ∈ blk.operations, x ∈ blk2.operations := by
  unfold emitCall at h
  cases hc : s3.ops[callee]? with
  | none => simp [hc] at h
  | some op =>
    cases op with
    | FuncOp name type body =>
      simp only [hc, Option.some.injEq, Prod.mk.injEq] at h
      obtain ⟨rfl, rfl⟩ := h
      refine ⟨rfl, ⟨type.results, rfl⟩, rfl, rfl, rfl, rfl, rfl, ?_⟩
      intro b blk hb
      obtain ⟨blk2, h1, -, h3, -⟩ := create_blocks s3
        (Operation.CallOp calleeName callerArgs type.results) b blk hb
      exact ⟨blk2, h1, h3⟩
    | _ => simp [hc] at h

theorem processStmt_user_steps (scop : OslScop) (number : Int) (s s2 : Importer)
    (r : LogicalResult) (stmt : osl_statement) (text : StringRef)
    (hstmt : scop.getStatement (number - 1) = some stmt) (htext : bodyText stmt = some text)
    (h : processStmt_user scop number s = some (r, s2)) :
    ∃ callee s1 entry r3 s3 callerArgs,
      declareCallee s (parseUserStmtBody text [] []).2.1 (parseUserStmtBody text [] []).2.2 =
        some (callee, s1) ∧
      s1.entryBlock = some entry ∧
      callerArgsLoop (parseUserStmtBody text [] []).2.2.length entry 0
        (parseUserStmtBody text [] []).2.2 s1 [] = some (r3, s3, callerArgs) ∧
      ((r3 = .failure ∧ r = .failure ∧ s2 = s3) ∨
       (r3 = .success ∧
        emitCall s3 (parseUserStmtBody text [] []).2.1 callee callerArgs = some (r, s2))) := by
  unfold processStmt_user at h
  simp only [hstmt, htext] at h
  have hp : failed (parseUserStmtBody text [] []).1 = false := rfl
  simp only [hp, Bool.false_eq_true, if_false] at h
  cases hd : declareCallee s (parseUserStmtBody text [] []).2.1
      (parseUserStmtBody text [] []).2.2 with
  | none => simp [hd] at h
  | some p =>
    obtain ⟨callee, s1⟩ := p
    simp only [hd] at h
    cases he : s1.entryBlock with
    | none => simp [he] at h
    | some entry =>
      simp only [he] at h
      cases hl : callerArgsLoop (parseUserStmtBody text [] []).2.2.length entry 0
          (parseUserStmtBody text [] []).2.2 s1 [] with
      | none => simp [hl] at h
      | some q =>
        obtain ⟨r3, s3, callerArgs⟩ := q
        simp only [hl] at h
        refine ⟨callee, s1, entry, r3, s3, callerArgs, rfl, he, hl, ?_⟩
        cases r3 with
        | failure =>
          simp only [Option.some.injEq, Prod.mk.injEq] at h
          exact Or.inl ⟨rfl, h.1.symm, h.2.symm⟩
        | success => exact Or.inr ⟨rfl, h⟩



theorem calleeArgTypesLoop_length (numArgs : Nat) (args : List StringRef) (i : Nat) :
    (calleeArgTypesLoop numArgs i args).length = args.length := by
  induction args generalizing i with
  | nil => simp [calleeArgTypesLoop]
  | cons a rest ih => simp [calleeArgTypesLoop, ih]

theorem calleeArgTypesLoop_getElem? (numArgs : Nat) (args : List StringRef) (i j : Nat)
    (a : StringRef) (h : args[j]? = some a) :
    (calleeArgTypesLoop numArgs i args)[j]? =
      some (if isMemrefArg a then memType numArgs (i + j)
            else if isResultArg a then MLIRType.f32 else MLIRType.index) := by
  induction args generalizing i j with
  | nil => simp at h
  | cons b rest ih =>
    cases j with
    | zero =>
      simp only [List.getElem?_cons_zero, Option.some.injEq] at h
      subst h
      simp [calleeArgTypesLoop]
    | succ j =>
      simp only [List.getElem?_cons_succ] at h
      simp only [calleeArgTypesLoop, List.getElem?_cons_succ]
      rw [ih (i + 1) j h]
      have : i + 1 + j = i + (j + 1) := by omega
      rw [this]

theorem argResolves_congr {sa sb sc sd : Importer} {name : StringRef} {v : Value}
    (h1 : sb.symTable = sa.symTable) (h2 : sb.symNameToArg = sa.symNameToArg)
    (h3 : sd.symTable.values = sc.symTable.values) (h : ArgResolves sa sc name v) :
    ArgResolves sb sd name v := by
  unfold ArgResolves at h ⊢
  simp only [OslSymbolTable.getValue, OslSymbolTable.getOperation] at h ⊢
  rw [h1, h2, h3]
  exact h

/-- C8: the call emitted for a user statement has one operand per parsed
argument name, in the order of the names; each operand is what its name resolves
to (`ArgResolves`); the call is bound to the callee name in the symbol table. -/
theorem processStmt_user_call_operands (scop : OslScop) (number : Int) (s s2 : Importer)
    (h : processStmt_user scop number s = some (.success, s2)) :
    ∃ stmt text callerArgs resultTypes,
      scop.getStatement (number - 1) = some stmt ∧ bodyText stmt = some text ∧
      s2.ops.getLast? = some (Operation.CallOp (parseUserStmtBody text [] []).2.1
        callerArgs resultTypes) ∧
      s2.symTable.getOperation (parseUserStmtBody text [] []).2.1 = some (s2.ops.length - 1) ∧
      callerArgs.length = (parseUserStmtBody text [] []).2.2.length ∧
      List.Forall₂ (ArgResolves s s2) (parseUserStmtBody text [] []).2.2 callerArgs := by
  cases hstmt : scop.getStatement (number - 1) with
  | none => simp [processStmt_user, hstmt] at h
  | some stmt =>
    cases htext : bodyText stmt with
    | none => simp [processStmt_user, hstmt, htext] at h
    | some text =>
      obtain ⟨callee, s1, entry, r3, s3, callerArgs, hd, -, hl, hcase⟩ :=
        processStmt_user_steps scop number s s2 .success stmt text hstmt htext h
      rcases hcase with ⟨-, hr, -⟩ | ⟨rfl, he⟩
      · exact absurd hr (by simp)
      · obtain ⟨vals, hout, hall⟩ := callerArgsLoop_resolves _ _ _ _ _ _ _ _ hl
        simp only [List.nil_append] at hout
        subst hout
        obtain ⟨-, -, -, hsym1, hmap1, -, -, -, -, -⟩ := declareCallee_spec _ _ _ _ _ hd
        obtain ⟨-, ⟨rt, hops⟩, hvals, hsymops, -, -, -, -⟩ := emitCall_spec _ _ _ _ _ _ he
        refine ⟨stmt, text, callerArgs, rt, rfl, htext, ?_, ?_, ?_, ?_⟩
        · simp [hops]
        · simp [OslSymbolTable.getOperation, hsymops, hops]
        · exact hall.length_eq.symm
        · exact hall.imp (fun _ _ hr => argResolves_congr hsym1.symm hmap1.symm hvals hr)

/-- C3, amended: a user statement whose statement is found always creates a new
callee declaration, also when the callee name is already in the callee table:
the declaration is a new operation of the module body, the callee table maps the
name to it, and every function that existed keeps its name, its body and its
argument types. -/
theorem processStmt_user_declares_callee (scop : OslScop) (number : Int) (s s2 : Importer)
    (r : LogicalResult) (stmt : osl_statement) (text : StringRef)
    (hstmt : scop.getStatement (number - 1) = some stmt) (htext : bodyText stmt = some text)
    (h : processStmt_user scop number s = some (r, s2)) :
    (∃ type, s2.ops[s.ops.length]? =
      some (Operation.FuncOp (parseUserStmtBody text [] []).2.1 type none)) ∧
    (∃ blk, s2.blocks[s.moduleBody]? = some blk ∧ s.ops.length ∈ blk.operations) ∧
    s2.calleeMap.lookup (parseUserStmtBody text [] []).2.1 = some s.ops.length ∧
    ∀ (id : Nat) (name0 : StringRef) (type0 : FunctionType) (body0 : Option Nat),
      s.ops[id]? = some (Operation.FuncOp name0 type0 body0) →
      ∃ type1, s2.ops[id]? = some (Operation.FuncOp name0 type1 body0) ∧
        type1.inputs = type0.inputs := by
  obtain ⟨callee, s1, entry, r3, s3, callerArgs, hd, -, hl, hcase⟩ :=
    processStmt_user_steps scop number s s2 r stmt text hstmt htext h
  obtain ⟨rfl, hops1, hcm1, -, -, -, hmb1, -, -, blk1, hblk1, hmem1⟩ :=
    declareCallee_spec _ _ _ _ _ hd
  have hf := callerArgsLoop_frame _ _ _ _ _ _ _ _ _ hl
  -- facts about the state after the loop
  have hfun3 : ∀ (id : Nat) (name0 : StringRef) (type0 : FunctionType) (body0 : Option Nat),
      s1.ops[id]? = some (Operation.FuncOp name0 type0 body0) →
      ∃ type1, s3.ops[id]? = some (Operation.FuncOp name0 type1 body0) ∧
        type1.inputs = type0.inputs := by
    intro id name0 type0 body0 hid
    obtain ⟨o2, ho2, hw⟩ := forall2_widened_getElem? hf.ops id _ hid
    rcases hw with rfl | ⟨n, t1, t2, b, e1, rfl, e3⟩
    · exact ⟨type0, ho2, rfl⟩
    · cases e1
      exact ⟨t2, ho2, e3⟩
  have hblk3 : ∃ blk, s3.blocks[s.moduleBody]? = some blk ∧ s.ops.length ∈ blk.operations := by
    have := hf.blockOps s.moduleBody
    rw [hblk1] at this
    cases hb3 : s3.blocks[s.moduleBody]? with
    | none => simp [hb3] at this
    | some blk3 =>
      simp only [hb3, Option.map_some', Option.some.injEq] at this
      exact ⟨blk3, rfl, by rw [this]; exact hmem1⟩
  have hcm3 : s3.calleeMap.lookup (parseUserStmtBody text [] []).2.1 = some s.ops.length := by
    rw [hf.calleeMap, hcm1]; simp [List.lookup_cons]
  have hlen3 : s.ops.length < s3.ops.length := by
    have := hf.ops.length_eq
    rw [hops1] at this
    simp at this
    omega
  have key : ∀ ops2 : List Operation, (∃ tail, ops2 = s3.ops ++ tail) →
      (∃ type, ops2[s.ops.length]? =
        some (Operation.FuncOp (parseUserStmtBody text [] []).2.1 type none)) ∧
      ∀ (id : Nat) (name0 : StringRef) (type0 : FunctionType) (body0 : Option Nat),
        s.ops[id]? = some (Operation.FuncOp name0 type0 body0) →
        ∃ type1, ops2[id]? = some (Operation.FuncOp name0 type1 body0) ∧
          type1.inputs = type0.inputs := by
    rintro ops2 ⟨tail, rfl⟩
    constructor
    · obtain ⟨type1, h1, -⟩ := hfun3 s.ops.length (parseUserStmtBody text [] []).2.1
        { inputs := calleeArgTypesLoop (parseUserStmtBody text [] []).2.2.length 0
            (parseUserStmtBody text [] []).2.2, results := [] } none (by rw [hops1]; simp)
      exact ⟨type1, by rw [List.getElem?_append_left hlen3]; exact h1⟩
    · intro id name0 type0 body0 hid
      have hidlt : id < s.ops.length := by
        by_contra hge
        rw [List.getElem?_eq_none (by omega)] at hid
        exact absurd hid (by simp)
      obtain ⟨type1, h1, h2⟩ := hfun3 id name0 type0 body0
        (by rw [hops1, List.getElem?_append_left hidlt]; exact hid)
      exact ⟨type1, by rw [List.getElem?_append_left (by omega)]; exact h1, h2⟩
  rcases hcase with ⟨-, -, rfl⟩ | ⟨-, he⟩
  · obtain ⟨k1, k2⟩ := key s2.ops ⟨[], by simp⟩
    exact ⟨k1, hblk3, hcm3, k2⟩
  · obtain ⟨-, ⟨rt, hops2⟩, -, -, hcm2, -, -, hblocks2⟩ := emitCall_spec _ _ _ _ _ _ he
    obtain ⟨k1, k2⟩ := key s2.ops ⟨_, hops2⟩
    obtain ⟨blk3, hb3, hm3⟩ := hblk3
    obtain ⟨blk2, hb2, hm2⟩ := hblocks2 _ _ hb3
    exact ⟨k1, ⟨blk2, hb2, hm2 _ hm3⟩, by rw [hcm2]; exact hcm3, k2⟩

theorem isMemrefArg_iff (a : StringRef) :
    isMemrefArg a = true ↔ 2 ≤ a.length ∧ a.head? = some 'A' := by
  simp [isMemrefArg]

theorem isResultArg_iff (a : StringRef) :
    isResultArg a = true ↔ 2 ≤ a.length ∧ a.head? = some 'S' := by
  simp [isResultArg]

/-- C9: the callee that a user statement with `n` parsed argument names declares
has `n` parameter types and no result; the type at position `i` is the buffer
type of rank `n - i - 1` with dynamic dimensions for a name of length at least 2
that starts with `A`, else the scalar type for a name of length at least 2 that
starts with `S`, else the index type (so for the names `A` and `S`); the
parameter types are still these after the statement. -/
theorem processStmt_user_callee_type (scop : OslScop) (number : Int) (s s2 : Importer)
    (r : LogicalResult) (stmt : osl_statement) (text : StringRef)
    (hstmt : scop.getStatement (number - 1) = some stmt) (htext : bodyText stmt = some text)
    (h : processStmt_user scop number s = some (r, s2)) :
    ∃ callee s1 tys type,
      declareCallee s (parseUserStmtBody text [] []).2.1 (parseUserStmtBody text [] []).2.2 =
        some (callee, s1) ∧
      s1.ops[callee]? = some (Operation.FuncOp (parseUserStmtBody text [] []).2.1
        { inputs := tys, results := [] } none) ∧
      s2.ops[callee]? = some (Operation.FuncOp (parseUserStmtBody text [] []).2.1 type none) ∧
      type.inputs = tys ∧
      tys.length = (parseUserStmtBody text [] []).2.2.length ∧
      (∀ (i : Nat) (a : StringRef), (parseUserStmtBody text [] []).2.2[i]? = some a →
        tys[i]? = some
          (if 2 ≤ a.length ∧ a.head? = some 'A' then
             MLIRType.memref (List.replicate ((parseUserStmtBody text [] []).2.2.length - i - 1) (-1))
           else if 2 ≤ a.length ∧ a.head? = some 'S' then MLIRType.f32
           else MLIRType.index)) ∧
      (∀ i : Nat, (parseUserStmtBody text [] []).2.2[i]? = some ['A'] ∨
          (parseUserStmtBody text [] []).2.2[i]? = some ['S'] →
        tys[i]? = some MLIRType.index) := by
  obtain ⟨callee, s1, entry, r3, s3, callerArgs, hd, -, hl, hcase⟩ :=
    processStmt_user_steps scop number s s2 r stmt text hstmt htext h
  obtain ⟨hcallee, hops1, -, -, -, -, -, -, -, -⟩ := declareCallee_spec _ _ _ _ _ hd
  have hf := callerArgsLoop_frame _ _ _ _ _ _ _ _ _ hl
  have h1 : s1.ops[callee]? = some (Operation.FuncOp (parseUserStmtBody text [] []).2.1
      { inputs := calleeArgTypesLoop (parseUserStmtBody text [] []).2.2.length 0
          (parseUserStmtBody text [] []).2.2, results := [] } none) := by
    rw [hops1, hcallee]; simp
  have hform : ∀ (i : Nat) (a : StringRef), (parseUserStmtBody text [] []).2.2[i]? = some a →
      (calleeArgTypesLoop (parseUserStmtBody text [] []).2.2.length 0
          (parseUserStmtBody text [] []).2.2)[i]? = some
        (if 2 ≤ a.length ∧ a.head? = some 'A' then
           MLIRType.memref (List.replicate ((parseUserStmtBody text [] []).2.2.length - i - 1) (-1))
         else if 2 ≤ a.length ∧ a.head? = some 'S' then MLIRType.f32
         else MLIRType.index) := by
    intro i a ha
    rw [calleeArgTypesLoop_getElem? _ _ 0 i a ha]
    simp only [Nat.zero_add, memType, Option.some.injEq]
    by_cases hA : 2 ≤ a.length ∧ a.head? = some 'A'
    · rw [if_pos hA, if_pos ((isMemrefArg_iff a).mpr hA)]
    · have hA2 : ¬ isMemrefArg a = true := fun e => hA ((isMemrefArg_iff a).mp e)
      rw [if_neg hA, if_neg hA2]
      by_cases hS : 2 ≤ a.length ∧ a.head? = some 'S'
      · rw [if_pos hS, if_pos ((isResultArg_iff a).mpr hS)]
      · have hS2 : ¬ isResultArg a = true := fun e => hS ((isResultArg_iff a).mp e)
        rw [if_neg hS, if_neg hS2]
  obtain ⟨o3, ho3, hw⟩ := forall2_widened_getElem? hf.ops callee _ h1
  have h3 : ∃ type, s3.ops[callee]? =
      some (Operation.FuncOp (parseUserStmtBody text [] []).2.1 type none) ∧
      type.inputs = calleeArgTypesLoop (parseUserStmtBody text [] []).2.2.length 0
          (parseUserStmtBody text [] []).2.2 := by
    rcases hw with rfl | ⟨n, t1, t2, b, e1, rfl, e3⟩
    · exact ⟨_, ho3, rfl⟩
    · cases e1
      exact ⟨t2, ho3, e3⟩
  obtain ⟨type, ht3, hin⟩ := h3
  have h2 : s2.ops[callee]? =
      some (Operation.FuncOp (parseUserStmtBody text [] []).2.1 type none) := by
    rcases hcase with ⟨-, -, rfl⟩ | ⟨-, he⟩
    · exact ht3
    · obtain ⟨-, ⟨rt, hops2⟩, -⟩ := emitCall_spec _ _ _ _ _ _ he
      have hlt : callee < s3.ops.length := by
        by_contra hge
        rw [List.getElem?_eq_none (by omega)] at ht3
        exact absurd ht3 (by simp)
      rw [hops2, List.getElem?_append_left hlt]
      exact ht3
  refine ⟨callee, s1, _, type, hd, h1, h2, hin, calleeArgTypesLoop_length _ _ _, hform, ?_⟩
  intro i hi
  rcases hi with hi | hi
  · rw [hform i _ hi]; simp
  · rw [hform i _ hi]; simp

/-! ### Symbol arguments -/

end Importer

/-! ## The code on sample inputs -/

open Importer Examples

/-- C1 (defect of the code): the user statement `S0(A0, j)` names `j`, which is
bound nowhere.  Alone after the root it makes `processStmtList` fail; as the
body of a for-node it fails in the state in which the body is processed, and
`processStmtList` on the whole list returns success. -/
theorem processStmtList_loop_body_failure_lost :
    result (scopOf ["S0(A0, j)"] []) (.stmt_root (.stmt_user 1 .null)) = some .failure ∧
    (processStmtList (scopOf ["S0(A0, j)"] []) (.stmt_user 1 .null) loopBodyState).map Prod.fst =
      some .failure ∧
    result (scopOf ["S0(A0, j)"] [])
      (.stmt_root (loop (constant 0) (constant 9) (.stmt_user 1 .null) .null)) =
      some .success := by
  decide

/-- C2 (defect of the code): the loop `for (i = n; i <= n; i += 1)` mentions the
one symbol `n` twice.  After the import the entry block of `main` (block 1) has
two `index` arguments, and `symNameToArg` binds `n` to the first of them. -/
theorem getAffineLoopBound_adds_argument_for_known_symbol :
    (run (scopOf [] ["n"]) (.stmt_root (loop (name "n") (name "n") .null .null))).map
        (fun p => (p.1, p.2.getArgumentTypes 1, p.2.symNameToArg)) =
      some (.success, [MLIRType.index, MLIRType.index],
        [("n".toList, Value.blockArgument 1 0)]) := by
  decide

/-- C3, counterexample: two user statements with the body `S0(A0)` after the
root give a module with two functions named `S0`. -/
theorem processStmt_user_second_declaration :
    (run (scopOf ["S0(A0)"] []) (.stmt_root (.stmt_user 1 (.stmt_user 1 .null)))).map
        (fun p => (p.1, declarationsNamed p.2 "S0".toList)) =
      some (.success, 2) := by
  decide

/-- C4 (defect of the code): after the root and the statement `S0(A0)`, the name
`S0` is bound to a call (operation 4) that has no result; the widening of
the callee (operation 3) leaves that call without a result; `resultArg` for the
name `S0` is undefined, and so is the import of the list in which the statement
`S1(S0)` follows. -/
theorem resultArg_source_call_has_no_result :
    processStmt_user (scopOf ["S0(A0)", "S1(S0)"] []) 1 rootState =
      some (.success, firstStatementState (scopOf ["S0(A0)", "S1(S0)"] [])) ∧
    (firstStatementState (scopOf ["S0(A0)", "S1(S0)"] [])).symTable.getOperation "S0".toList =
      some 4 ∧
    (firstStatementState (scopOf ["S0(A0)", "S1(S0)"] [])).ops[4]? =
      some (.CallOp "S0".toList [Value.blockArgument 1 0] []) ∧
    (firstStatementState (scopOf ["S0(A0)", "S1(S0)"] [])).ops[3]? =
      some (.FuncOp "S0".toList { inputs := [MLIRType.memref []], results := [] } none) ∧
    (widenCallee (firstStatementState (scopOf ["S0(A0)", "S1(S0)"] [])) 3
        { inputs := [MLIRType.memref []], results := [] }).ops[3]? =
      some (.FuncOp "S0".toList
        { inputs := [MLIRType.memref []], results := [MLIRType.f32] } none) ∧
    (widenCallee (firstStatementState (scopOf ["S0(A0)", "S1(S0)"] [])) 3
        { inputs := [MLIRType.memref []], results := [] }).ops[4]? =
      some (.CallOp "S0".toList [Value.blockArgument 1 0] []) ∧
    resultArg (firstStatementState (scopOf ["S0(A0)", "S1(S0)"] [])) "S0".toList = none ∧
    run (scopOf ["S0(A0)", "S1(S0)"] [])
      (.stmt_root (.stmt_user 1 (.stmt_user 2 .null))) = none := by
  decide

/-- C5, counterexample: the term `2 * n` is built as symbol slot 0, whose value
for `n = 1` is 1 and not 2.  Also: a name that the scop does not classify as a
symbol and a sum without elements leave defined behaviour, and the constant
`2 ^ 63` is built as the largest 64-bit integer. -/
theorem process_term_drops_coefficient :
    (clast_expr.expr_term 2 (name "n")).isSimpleBound = true ∧
    (AffineExprBuilder.process (scopOf [] ["n"]) (.expr_term 2 (name "n"))
        AffineExprBuilder.reset none).map
      (fun p => (p.1, p.2.2.map
        (fun a => a.eval (slotEnv (fun _ => 1) p.2.1.symbolNames) (fun _ => 0)))) =
      some (.success, some 1) ∧
    (clast_expr.expr_term 2 (name "n")).value (fun _ => 1) = 2 ∧
    AffineExprBuilder.process (scopOf [] []) (name "n") AffineExprBuilder.reset none = none ∧
    AffineExprBuilder.process (scopOf [] []) (.expr_red .clast_red_sum .nil)
      AffineExprBuilder.reset none = none ∧
    AffineExprBuilder.process (scopOf [] []) (constant (2 ^ 63)) AffineExprBuilder.reset none =
      some (.success, AffineExprBuilder.reset, some (AffineExpr.constant (2 ^ 63 - 1))) := by
  decide

/-- C7, counterexample: the body text `foo` has no opening parenthesis, and the
callee name that `parseUserStmtBody` yields is `foo`, not the empty name. -/
theorem parseUserStmtBody_callee_is_whole_text :
    '(' ∉ "foo".toList ∧
    parseUserStmtBody "foo".toList [] [] = (.success, "foo".toList, []) ∧
    (parseUserStmtBody "foo".toList [] []).2.1 ≠ [] := by
  decide

/-- Witness for C3: in the state in which `S0` is already declared, the statement
`S0(A0)` declares `S0` once more, as a new operation, and the callee table
names the new declaration. -/
theorem processStmt_user_declares_callee_witness :
    processStmt_user (scopOf ["S0(A0)"] []) 1 (firstStatementState (scopOf ["S0(A0)"] [])) =
      some (userOutcome (scopOf ["S0(A0)"] []) 1 (firstStatementState (scopOf ["S0(A0)"] []))) ∧
    (firstStatementState (scopOf ["S0(A0)"] [])).calleeMap.lookup "S0".toList = some 3 ∧
    (userOutcome (scopOf ["S0(A0)"] []) 1
        (firstStatementState (scopOf ["S0(A0)"] []))).2.calleeMap.lookup "S0".toList =
      some (firstStatementState (scopOf ["S0(A0)"] [])).ops.length :=
  ⟨by decide, by decide,
    (processStmt_user_declares_callee (scopOf ["S0(A0)"] []) 1
      (firstStatementState (scopOf ["S0(A0)"] []))
      (userOutcome (scopOf ["S0(A0)"] []) 1 (firstStatementState (scopOf ["S0(A0)"] []))).2
      (userOutcome (scopOf ["S0(A0)"] []) 1 (firstStatementState (scopOf ["S0(A0)"] []))).1
      (stmtOf "S0(A0)") "S0(A0)".toList (by decide) (by decide) (by decide)).2.2.1⟩

/-- Witness for C5: the bound `n + 3` with the symbol `n`. -/
theorem process_simple_bound_witness :
    ∃ b a, AffineExprBuilder.process (scopOf [] ["n"])
        (.expr_red .clast_red_sum
          (.cons (.expr_term 1 (name "n")) (.cons (constant 3) .nil)))
        AffineExprBuilder.reset none = some (.success, b, some a) ∧
      b.symbolNames = ["n".toList] ∧
      a.eval (slotEnv (fun _ => 5) b.symbolNames) (fun _ => 0) = 8 :=
  AffineExprBuilder.process_simple_bound (scopOf [] ["n"]) (fun _ => 5)
    (.expr_red .clast_red_sum (.cons (.expr_term 1 (name "n")) (.cons (constant 3) .nil)))
    (by decide) (by decide) (by decide) (by decide) (by intro h; cases h)

/-- Witness for C6: the body text `S0(A0, i)`. -/
theorem parseUserStmtBody_wellformed_witness :
    parseUserStmtBody "S0(A0, i)".toList [] [] =
      (.success, "S0".toList, ["A0".toList, "i".toList]) :=
  parseUserStmtBody_wellformed "S0".toList ["A0".toList, " i".toList]
    (by decide) (by decide) (by decide)

/-- Witness for C7: the body text `foo`. -/
theorem parseUserStmtBody_no_paren_witness :
    parseUserStmtBody "foo".toList [] [] = (.success, "foo".toList, []) :=
  parseUserStmtBody_no_paren "foo".toList (by decide)

/-- Witness for C8: the statement `S0(A0, i)` in the body of the loop over `i`. -/
theorem processStmt_user_call_operands_witness :
    ∃ stmt text callerArgs resultTypes,
      (scopOf ["S0(A0, i)"] []).getStatement (1 - 1) = some stmt ∧ bodyText stmt = some text ∧
      (userOutcome (scopOf ["S0(A0, i)"] []) 1 loopBodyState).2.ops.getLast? =
        some (Operation.CallOp (parseUserStmtBody text [] []).2.1 callerArgs resultTypes) ∧
      (userOutcome (scopOf ["S0(A0, i)"] []) 1 loopBodyState).2.symTable.getOperation
          (parseUserStmtBody text [] []).2.1 =
        some ((userOutcome (scopOf ["S0(A0, i)"] []) 1 loopBodyState).2.ops.length - 1) ∧
      callerArgs.length = (parseUserStmtBody text [] []).2.2.length ∧
      List.Forall₂
        (ArgResolves loopBodyState (userOutcome (scopOf ["S0(A0, i)"] []) 1 loopBodyState).2)
        (parseUserStmtBody text [] []).2.2 callerArgs :=
  processStmt_user_call_operands (scopOf ["S0(A0, i)"] []) 1 loopBodyState
    (userOutcome (scopOf ["S0(A0, i)"] []) 1 loopBodyState).2 (by decide)

/-- Witness for C9: the statement `S0(A0, i)` in the body of the loop over `i`
declares `S0` with a buffer type of rank 1 and the index type. -/
theorem processStmt_user_callee_type_witness :
    (userOutcome (scopOf ["S0(A0, i)"] []) 1 loopBodyState).2.ops[5]? =
        some (Operation.FuncOp "S0".toList
          { inputs := [MLIRType.memref [-1], MLIRType.index], results := [] } none) ∧
    ∃ callee s1 tys type,
      declareCallee loopBodyState (parseUserStmtBody "S0(A0, i)".toList [] []).2.1
          (parseUserStmtBody "S0(A0, i)".toList [] []).2.2 = some (callee, s1) ∧
      s1.ops[callee]? = some (Operation.FuncOp (parseUserStmtBody "S0(A0, i)".toList [] []).2.1
        { inputs := tys, results := [] } none) ∧
      (userOutcome (scopOf ["S0(A0, i)"] []) 1 loopBodyState).2.ops[callee]? =
        some (Operation.FuncOp (parseUserStmtBody "S0(A0, i)".toList [] []).2.1 type none) ∧
      type.inputs = tys ∧
      tys.length = (parseUserStmtBody "S0(A0, i)".toList [] []).2.2.length ∧
      (∀ (i : Nat) (a : StringRef),
        (parseUserStmtBody "S0(A0, i)".toList [] []).2.2[i]? = some a →
        tys[i]? = some
          (if 2 ≤ a.length ∧ a.head? = some 'A' then
             MLIRType.memref (List.replicate
               ((parseUserStmtBody "S0(A0, i)".toList [] []).2.2.length - i - 1) (-1))
           else if 2 ≤ a.length ∧ a.head? = some 'S' then MLIRType.f32
           else MLIRType.index)) ∧
      (∀ i : Nat, (parseUserStmtBody "S0(A0, i)".toList [] []).2.2[i]? = some ['A'] ∨
          (parseUserStmtBody "S0(A0, i)".toList [] []).2.2[i]? = some ['S'] →
        tys[i]? = some MLIRType.index) :=
  ⟨by decide,
    processStmt_user_callee_type (scopOf ["S0(A0, i)"] []) 1 loopBodyState
      (userOutcome (scopOf ["S0(A0, i)"] []) 1 loopBodyState).2
      (userOutcome (scopOf ["S0(A0, i)"] []) 1 loopBodyState).1
      (stmtOf "S0(A0, i)") "S0(A0, i)".toList (by decide) (by decide) (by decide)⟩

end Polymer

namespace Polymer
open Importer

/-- C14: `processStmtList` gives the same result and the same state (module,
symbol table, maps) on a statement list and on the list without its
assignments, guards, blocks and other unhandled nodes, at every nesting level. -/
theorem processStmtList_strip (scop : OslScop) (list : clast_stmt) (s : Importer) :
    processStmtList scop list.strip s = processStmtList scop list s := by
  induction list generalizing s with
  | null => rfl
  | stmt_root next ih =>
    simp only [clast_stmt.strip, processStmtList]
    cases processStmt_root s with
    | none => rfl
    | some p => obtain ⟨r, s1⟩ := p; cases r <;> simp [ih]
  | stmt_ass next ih => simp only [clast_stmt.strip, processStmtList, ih]
  | stmt_user number next ih =>
    simp only [clast_stmt.strip, processStmtList]
    cases processStmt_user scop number s with
    | none => rfl
    | some p => obtain ⟨r, s1⟩ := p; cases r <;> simp [ih]
  | stmt_for iterator LB UB stride body next ihb ihn =>
    have hb : processStmtList scop body.strip = processStmtList scop body := funext ihb
    simp only [clast_stmt.strip, processStmtList, hb]
    cases processStmt_for scop iterator LB UB stride (processStmtList scop body) s with
    | none => rfl
    | some p => obtain ⟨r, s1⟩ := p; cases r <;> simp [ihn]
  | stmt_guard next ih => simp only [clast_stmt.strip, processStmtList, ih]
  | stmt_block next ih => simp only [clast_stmt.strip, processStmtList, ih]
  | stmt_other next ih => simp only [clast_stmt.strip, processStmtList, ih]

/-- C19: a reduction whose operator is not the sum and whose number of elements
is not 1 makes `process` return success with the affine expression and the
builder (symbol names, dimension names) as they were passed; a reduction with
exactly one element gives what processing that element gives. -/
theorem process_reduction_not_lowered (scop : OslScop) (type : clast_red_type)
    (elts : clast_elts) (b : AffineExprBuilder) (affExpr : Option AffineExpr) :
    (type ≠ .clast_red_sum → elts.n ≠ 1 →
      AffineExprBuilder.process scop (.expr_red type elts) b affExpr =
        some (.success, b, affExpr)) ∧
    (∀ elt, elts = .cons elt .nil →
      AffineExprBuilder.process scop (.expr_red type elts) b affExpr =
        AffineExprBuilder.process scop elt b affExpr) := by
  constructor
  · intro ht hn
    cases elts with
    | nil => cases type <;> simp_all [AffineExprBuilder.process]
    | cons elt rest =>
      cases rest with
      | nil => simp [clast_elts.n] at hn
      | cons e2 r2 => cases type <;> simp_all [AffineExprBuilder.process]
  · intro elt he
    subst he
    simp only [AffineExprBuilder.process]
    cases AffineExprBuilder.process scop elt b affExpr with
    | none => rfl
    | some p => obtain ⟨r, s1⟩ := p; cases r <;> rfl

end Polymer

namespace Polymer
open Importer Examples

/-- C15: the import of the root followed by `for (i = 0; i <= 9; i += 1)` whose body
is the statement `S0(A0, i)`, in a scop without symbols, succeeds.  The module
holds `main` and the declaration of `S0`; `main` has the buffer argument as its
only argument and no symbol argument; its body is one loop with the constant
bounds 0 and 9 and the step 1, followed by the return; the body of the loop is
one call of `S0` whose operands are the new argument of `main` (of buffer type)
and the induction variable of the loop. -/
theorem roundTrip_import :
    run roundTripScop roundTripList = some (.success, roundTripState) ∧
    createFuncOpFromOpenScop roundTripScop roundTripList Importer.fresh =
      some (some 1, roundTripState) ∧
    blockOperations roundTripState 0 =
      [.FuncOp "main".toList { inputs := [MLIRType.memref [-1]], results := [] } (some 1),
       .FuncOp "S0".toList
         { inputs := [MLIRType.memref [-1], MLIRType.index], results := [] } none,
       .ModuleTerminatorOp] ∧
    roundTripState.symNameToArg = [] ∧
    roundTripState.getArgumentTypes 1 = [MLIRType.memref [-1]] ∧
    blockOperations roundTripState 1 =
      [.AffineForOp [] { numDims := 0, numSymbols := 0, result := AffineExpr.constant 0 }
         [] { numDims := 0, numSymbols := 0, result := AffineExpr.constant 9 } 1 2,
       .ReturnOp] ∧
    roundTripState.getArgumentTypes 2 = [MLIRType.index] ∧
    blockOperations roundTripState 2 =
      [.CallOp "S0".toList [Value.blockArgument 1 0, Value.blockArgument 2 0] [],
       .AffineTerminatorOp] := by
  decide

/-- C16 (defect of the code): for the round trip, whose import succeeds and gives
the function `main`, `translateOpenScopToModule` returns the null module; for a
list whose import fails (the statement `S0(A0, j)` names `j`, bound nowhere) it
returns the module. -/
theorem translateOpenScopToModule_inverted :
    (createFuncOpFromOpenScop roundTripScop roundTripList Importer.fresh).map Prod.fst =
      some (some 1) ∧
    translateOpenScopToModule roundTripScop roundTripList = some none ∧
    (createFuncOpFromOpenScop (scopOf ["S0(A0, j)"] []) (.stmt_root (.stmt_user 1 .null))
      Importer.fresh).map Prod.fst = some none ∧
    (translateOpenScopToModule (scopOf ["S0(A0, j)"] [])
      (.stmt_root (.stmt_user 1 .null))).map Option.isSome = some true := by
  decide

/-- C17 (defect of the code): the for-node `for (i = 0; i <= 9; i += 1)` iterates
over 0, ..., 9; the loop emitted for it (operation 3 of the round trip) has the
constant bounds 0 and 9 and the step 1, and as an `affine.for` iterates over
0, ..., 8.  For all constant bounds `L <= U` the value `U` is an iteration of the
for-node with stride 1 and not of an `affine.for` with the upper bound `U`. -/
theorem processStmt_for_upper_bound_exclusive :
    clastForIterations 0 9 1 = [0, 1, 2, 3, 4, 5, 6, 7, 8, 9] ∧
    roundTripState.ops[3]? =
      some (.AffineForOp [] { numDims := 0, numSymbols := 0, result := AffineExpr.constant 0 }
        [] { numDims := 0, numSymbols := 0, result := AffineExpr.constant 9 } 1 2) ∧
    roundTripState.ops[3]?.bind Operation.constantLoopIterations =
      some [0, 1, 2, 3, 4, 5, 6, 7, 8] ∧
    (∀ L U step : Int, L ≤ U →
      U ∈ clastForIterations L U 1 ∧ U ∉ affineForIterations L U step) := by
  refine ⟨by decide, by decide, by decide, ?_⟩
  intro L U step hLU
  constructor
  · simp only [clastForIterations, List.mem_filter, List.mem_map, List.mem_range]
    refine ⟨⟨(U - L).toNat, by omega, ?_⟩, by simp⟩
    have : ((U - L).toNat : Int) = U - L := Int.toNat_of_nonneg (by omega)
    rw [this]; ring
  · simp [affineForIterations]

/-- C18 (defect of the code): the body of the for-node holds the two user
statements `S0(A0, j)` and `S1(A0, i)`; the first one fails (`j` is bound
nowhere), the import of the list succeeds, and the body of the emitted loop
(block 2) holds no call, only its terminator.  For comparison, when both
statements of the body succeed and a third statement follows the for-node, the
body of `main` (block 1) is the loop, the call of the third statement and the
return, and the body of the loop is the two calls in their order. -/
theorem processStmtList_loop_body_without_calls :
    (run (scopOf ["S0(A0, j)", "S1(A0, i)"] [])
      (.stmt_root (loop (constant 0) (constant 9)
        (.stmt_user 1 (.stmt_user 2 .null)) .null))).map
      (fun p => (p.1, blockOperations p.2 1, blockOperations p.2 2)) =
    some (.success,
      [.AffineForOp [] { numDims := 0, numSymbols := 0, result := AffineExpr.constant 0 }
         [] { numDims := 0, numSymbols := 0, result := AffineExpr.constant 9 } 1 2,
       .ReturnOp],
      [.AffineTerminatorOp]) ∧
    (run (scopOf ["S0(A0, i)", "S1(A0, i)", "S2(A0)"] [])
      (.stmt_root (loop (constant 0) (constant 9)
        (.stmt_user 1 (.stmt_user 2 .null)) (.stmt_user 3 .null)))).map
      (fun p => (p.1, blockOperations p.2 1, blockOperations p.2 2)) =
    some (.success,
      [.AffineForOp [] { numDims := 0, numSymbols := 0, result := AffineExpr.constant 0 }
         [] { numDims := 0, numSymbols := 0, result := AffineExpr.constant 9 } 1 2,
       .CallOp "S2".toList [Value.blockArgument 1 0] [],
       .ReturnOp],
      [.CallOp "S0".toList [Value.blockArgument 1 0, Value.blockArgument 2 0] [],
       .CallOp "S1".toList [Value.blockArgument 1 0, Value.blockArgument 2 0] [],
       .AffineTerminatorOp]) := by
  decide

end Polymer

namespace Polymer
namespace Importer

theorem widenSource_spec (s : Importer) (srcOp : Nat)
    (callee : StringRef) (operands : List Value) (resultTypes : List MLIRType)
    (srcCallee : Nat) (name : StringRef) (type : FunctionType) (body : Option Nat)
    (h2 : s.ops[srcOp]? = some (Operation.CallOp callee operands resultTypes))
    (h3 : s.calleeMap.lookup callee = some srcCallee)
    (h4 : s.ops[srcCallee]? = some (Operation.FuncOp name type body)) :
    ∃ s1, widenSource s srcOp = some s1 ∧
      (type.results = [] →
        s1.ops[srcCallee]? =
          some (Operation.FuncOp name { inputs := type.inputs, results := [MLIRType.f32] } body)) ∧
      (type.results ≠ [] → s1 = s) ∧
      (∀ id : Nat, id ≠ srcCallee → s1.ops[id]? = s.ops[id]?) := by
  refine ⟨widenCallee s srcCallee type, by simp only [widenSource, h2, h3, h4], ?_, ?_, ?_⟩
  · intro hr
    simp only [widenCallee, hr, List.length_nil, if_true, getElem?_updateOp, h4,
      Option.map_some', Operation.setType]
  · intro hr
    have : type.results.length ≠ 0 := fun e => hr (List.length_eq_zero.mp e)
    simp only [widenCallee, this, if_false]
  · intro id hid
    unfold widenCallee
    split
    · simp only [getElem?_updateOp, hid, if_false]
    · rfl

theorem resultArg_of_widenSource (s : Importer) (arg : StringRef) (srcOp : Nat)
    (h1 : s.symTable.getOperation arg = some srcOp) :
    resultArg s arg =
      (widenSource s srcOp).bind (fun s1 =>
        if 0 < ((s.ops[srcOp]?).map Operation.getNumResults).getD 0 then
          some (.success, s1, some (Value.opResult srcOp 0))
        else none) := by
  simp only [resultArg, h1, widenSource]
  cases h2 : s.ops[srcOp]? with
  | none => rfl
  | some op =>
    cases op with
    | CallOp callee operands resultTypes =>
      simp only []
      cases h3 : s.calleeMap.lookup callee with
      | none => rfl
      | some srcCallee =>
        simp only []
        cases h4 : s.ops[srcCallee]? with
        | none => rfl
        | some op2 =>
          cases op2 <;> simp [Operation.getNumResults]
    | _ => rfl

theorem callerArg_no_ghost_value (numArgs entry i : Nat) (arg : StringRef) (s s2 : Importer)
    (h : callerArg numArgs entry i arg s = some (.success, s2, none)) : False := by
  unfold callerArg at h
  split at h
  · split at h <;> simp at h
  · split at h
    · unfold resultArg at h
      split at h
      · simp at h
      · split at h
        · split at h
          · simp at h
          · split at h
            · split at h <;> simp at h
            · simp at h
        · simp at h
    · split at h
      · simp at h
      · split at h <;> simp at h

theorem callerArg_defined (numArgs entry i : Nat) (arg : StringRef) (s : Importer)
    (h : isResultArg arg = true → s.symTable.getOperation arg = none) :
    ∃ r s2 v, callerArg numArgs entry i arg s = some (r, s2, v) := by
  unfold callerArg
  split
  · split
    · exact ⟨_, _, _, rfl⟩
    · exact ⟨_, _, _, rfl⟩
  · split
    · rename_i hres
      simp only [resultArg, h hres]
      exact ⟨_, _, _, rfl⟩
    · split
      · exact ⟨_, _, _, rfl⟩
      · split <;> exact ⟨_, _, _, rfl⟩

theorem callerArgsLoop_defined (numArgs entry : Nat) :
    ∀ (names : List StringRef) (i : Nat) (s : Importer) (acc : List Value),
      (∀ b ∈ names, isResultArg b = true → s.symTable.getOperation b = none) →
      ∃ r s2 out, callerArgsLoop numArgs entry i names s acc = some (r, s2, out) := by
  intro names
  induction names with
  | nil => intro i s acc _; exact ⟨_, _, _, rfl⟩
  | cons name rest ih =>
    intro i s acc h
    obtain ⟨r, s1, v, hstep⟩ := callerArg_defined numArgs entry i name s (h name (by simp))
    simp only [callerArgsLoop, hstep]
    cases r with
    | failure => exact ⟨_, _, _, rfl⟩
    | success =>
      cases v with
      | none => exact (callerArg_no_ghost_value _ _ _ _ _ _ hstep).elim
      | some val =>
        have hf := callerArg_frame _ _ _ _ _ _ _ _ hstep
        apply ih
        intro b hb hres
        show s1.symTable.operations.lookup b = none
        rw [hf.symOps]
        exact h b (by simp [hb]) hres

theorem declareCallee_other_blocks (s s1 : Importer) (calleeName : StringRef)
    (args : List StringRef) (callee : Nat)
    (h : declareCallee s calleeName args = some (callee, s1)) (b : Nat)
    (hb : b ≠ s.moduleBody) : s1.blocks[b]? = s.blocks[b]? := by
  unfold declareCallee at h
  cases hpt : s.getFuncInsertPt with
  | none => simp [hpt] at h
  | some pt =>
    simp only [hpt, Option.some.injEq, Prod.mk.injEq] at h
    obtain ⟨-, rfl⟩ := h
    simp only [create, getElem?_updateBlock, hb, if_false]

theorem declareCallee_defined (s : Importer) (calleeName : StringRef) (args : List StringRef)
    (pt : Nat) (h : s.getFuncInsertPt = some pt) :
    ∃ callee s1, declareCallee s calleeName args = some (callee, s1) := by
  simp only [declareCallee, h]
  exact ⟨_, _, rfl⟩

theorem entryBlock_of_ops_append (s s1 : Importer) (op : Operation) (entry : Nat)
    (hops : s1.ops = s.ops ++ [op]) (hfunc : s1.func = s.func)
    (h : s.entryBlock = some entry) : s1.entryBlock = some entry := by
  unfold entryBlock at h ⊢
  rw [hfunc, hops]
  cases hf : s.func with
  | none => simp [hf] at h
  | some f =>
    simp only [hf] at h ⊢
    have hlt : f < s.ops.length := by
      by_contra hge
      rw [List.getElem?_eq_none (by omega)] at h
      simp at h
    rw [List.getElem?_append_left hlt]
    exact h

/-- Outside the undefined step of the result-argument branch, a user statement
one of whose argument names is not resolved (not a memory reference, not a
result reference, bound neither in the symbol table nor in `symNameToArg`) can
only return failure; no call operation is then created, no block other than the
module body gets an operation, and the operations bound in the symbol table are
unchanged.  It does return failure when the module body has its terminator,
`func` has its entry block and no result-reference argument is bound to an
operation. -/
theorem processStmt_user_unresolved_never_succeeds (scop : OslScop) (number : Int) (s : Importer)
    (stmt : osl_statement) (text a : StringRef)
    (hstmt : scop.getStatement (number - 1) = some stmt) (htext : bodyText stmt = some text)
    (ha : a ∈ (parseUserStmtBody text [] []).2.2) (hun : Unresolved s a) :
    (∀ r s2, processStmt_user scop number s = some (r, s2) →
      r = .failure ∧
      (∀ (id : Nat) (callee : StringRef) (operands : List Value) (resultTypes : List MLIRType),
        s2.ops[id]? = some (Operation.CallOp callee operands resultTypes) →
        s.ops[id]? = some (Operation.CallOp callee operands resultTypes)) ∧
      (∀ b : Nat, b ≠ s.moduleBody →
        s2.blocks[b]?.map Block.operations = s.blocks[b]?.map Block.operations) ∧
      s2.symTable.operations = s.symTable.operations) ∧
    ((∃ pt, s.getFuncInsertPt = some pt) → (∃ entry, s.entryBlock = some entry) →
      (∀ b ∈ (parseUserStmtBody text [] []).2.2,
        isResultArg b = true → s.symTable.getOperation b = none) →
      ∃ s2, processStmt_user scop number s = some (.failure, s2)) := by
  have main : ∀ r s2, processStmt_user scop number s = some (r, s2) →
      r = .failure ∧
      (∀ (id : Nat) (callee : StringRef) (operands : List Value) (resultTypes : List MLIRType),
        s2.ops[id]? = some (Operation.CallOp callee operands resultTypes) →
        s.ops[id]? = some (Operation.CallOp callee operands resultTypes)) ∧
      (∀ b : Nat, b ≠ s.moduleBody →
        s2.blocks[b]?.map Block.operations = s.blocks[b]?.map Block.operations) ∧
      s2.symTable.operations = s.symTable.operations := by
    intro r s2 h
    obtain ⟨callee, s1, entry, r3, s3, callerArgs, hd, -, hl, hcase⟩ :=
      processStmt_user_steps scop number s s2 r stmt text hstmt htext h
    obtain ⟨-, hops1, -, hsym1, hmap1, -⟩ := declareCallee_spec _ _ _ _ _ hd
    have hun1 : Unresolved s1 a := by
      obtain ⟨u1, u2, u3, u4⟩ := hun
      refine ⟨u1, u2, ?_, by rw [hmap1]; exact u4⟩
      show s1.symTable.values.lookup a = none
      rw [hsym1]
      exact u3
    have hr3 := callerArgsLoop_unresolved _ _ a _ _ _ _ _ _ _ ha hun1 hl
    have hf := callerArgsLoop_frame _ _ _ _ _ _ _ _ _ hl
    rcases hcase with ⟨-, hr, rfl⟩ | ⟨hs, -⟩
    · refine ⟨hr, ?_, ?_, ?_⟩
      · intro id cal operands resultTypes hid
        obtain ⟨o, ho, hw⟩ := forall2_widened_getElem?_rev hf.ops id _ hid
        have ho2 : o = Operation.CallOp cal operands resultTypes := by
          rcases hw with e | ⟨n, t1, t2, b, -, e2, -⟩
          · exact e.symm
          · exact absurd e2 (by simp)
        subst ho2
        rw [hops1] at ho
        by_cases hlt : id < s.ops.length
        · rw [List.getElem?_append_left hlt] at ho
          exact ho
        · have hge : s.ops.length ≤ id := by omega
          rw [List.getElem?_append_right hge] at ho
          cases hk : id - s.ops.length with
          | zero => rw [hk] at ho; simp at ho
          | succ k => rw [hk] at ho; simp at ho
      · intro b hb
        rw [hf.blockOps b, declareCallee_other_blocks _ _ _ _ _ hd b hb]
      · rw [hf.symOps, hsym1]
    · rw [hr3] at hs; exact absurd hs (by simp)
  refine ⟨main, ?_⟩
  rintro ⟨pt, hpt⟩ ⟨entry, hentry⟩ hres
  obtain ⟨callee, s1, hd⟩ := declareCallee_defined s (parseUserStmtBody text [] []).2.1
    (parseUserStmtBody text [] []).2.2 pt hpt
  obtain ⟨-, hops1, -, hsym1, -, hfunc1, -⟩ := declareCallee_spec _ _ _ _ _ hd
  have he1 : s1.entryBlock = some entry := entryBlock_of_ops_append s s1 _ entry hops1 hfunc1 hentry
  obtain ⟨r3, s3, out, hl⟩ := callerArgsLoop_defined (parseUserStmtBody text [] []).2.2.length
    entry (parseUserStmtBody text [] []).2.2 0 s1 [] (by
      intro b hb hr
      show s1.symTable.operations.lookup b = none
      rw [hsym1]
      exact hres b hb hr)
  have hun1 : Unresolved s1 a := by
    obtain ⟨u1, u2, u3, u4⟩ := hun
    obtain ⟨-, -, -, -, hmap1, -⟩ := declareCallee_spec _ _ _ _ _ hd
    refine ⟨u1, u2, ?_, by rw [hmap1]; exact u4⟩
    show s1.symTable.values.lookup a = none
    rw [hsym1]
    exact u3
  have hr3 := callerArgsLoop_unresolved _ _ a _ _ _ _ _ _ _ ha hun1 hl
  subst hr3
  refine ⟨s3, ?_⟩
  have hp : failed (parseUserStmtBody text [] []).1 = false := rfl
  simp only [processStmt_user, hstmt, htext, hp, Bool.false_eq_true, if_false, hd, he1, hl]

end Importer
end Polymer

namespace Polymer
namespace Importer

/-! ### What keeps the value of a name -/

end Importer
end Polymer

namespace Polymer
namespace AffineExprBuilder

theorem rewrap_eq (x : Option (LogicalResult × BuildState)) :
    (match x with
      | none => none
      | some (.failure, s) => some (.failure, s)
      | some (.success, s) => some (.success, s)) = x := by
  cases x with
  | none => rfl
  | some p => obtain ⟨r, s⟩ := p; cases r <;> rfl

theorem process_term_nonnull (scop : OslScop) (val : Int) (var : clast_expr)
    (b : AffineExprBuilder) (affExpr : Option AffineExpr) (h : var ≠ .null) :
    process scop (.expr_term val var) b affExpr = process scop var b affExpr := by
  cases var with
  | null => exact absurd rfl h
  | expr_name n => simp only [process]; exact rewrap_eq _
  | expr_term v2 var2 => simp only [process]; exact rewrap_eq _
  | expr_bin t l r => simp only [process]
  | expr_red t elts =>
    rw [process_expr_term]
    simp only [process_term]
    exact rewrap_eq _

theorem slotsGrow_same (b : AffineExprBuilder) (slots : List Nat) :
    SlotsGrow b b slots slots := by
  refine ⟨rfl, le_refl _, fun _ hx => Or.inl hx, ?_⟩
  intro x h1 h2
  omega

mutual
theorem process_slots (scop : OslScop) :
    ∀ (e : clast_expr) (b : AffineExprBuilder) (a : Option AffineExpr)
      (b2 : AffineExprBuilder) (a2 : Option AffineExpr),
      process scop e b a = some (.success, b2, a2) → SlotsGrow b b2 (slotsOf a) (slotsOf a2)
  | .null, b, a, b2, a2, h => by simp [process] at h
  | .expr_name n, b, a, b2, a2, h => by
    simp only [process] at h
    rw [rewrap_eq] at h
    simp only [process_name] at h
    split at h
    · simp only [Option.some.injEq, Prod.mk.injEq, true_and] at h
      obtain ⟨rfl, rfl⟩ := h
      refine ⟨rfl, by simp, ?_, ?_⟩
      · intro x hx
        simp only [slotsOf, Option.map_some', Option.getD_some, AffineExpr.symbols,
          List.mem_singleton] at hx
        subst hx
        exact Or.inr ⟨le_refl _, by simp⟩
      · intro x h1 h2
        simp only [List.length_append, List.length_singleton] at h2
        simp only [slotsOf, Option.map_some', Option.getD_some, AffineExpr.symbols,
          List.mem_singleton]
        omega
    · simp at h
  | .expr_term val var, b, a, b2, a2, h => by
    by_cases hvar : var = .null
    · subst hvar
      simp only [process, getI64, failed, Bool.false_eq_true, if_false, Option.some.injEq,
        Prod.mk.injEq, true_and] at h
      obtain ⟨rfl, rfl⟩ := h
      refine ⟨rfl, le_refl _, ?_, ?_⟩
      · intro x hx
        simp [slotsOf, AffineExpr.symbols] at hx
      · intro x h1 h2
        omega
    · rw [process_term_nonnull scop val var b a hvar] at h
      exact process_slots scop var b a b2 a2 h
  | .expr_bin _ _ _, b, a, b2, a2, h => by
    simp only [process, Option.some.injEq, Prod.mk.injEq, true_and] at h
    obtain ⟨rfl, rfl⟩ := h
    exact slotsGrow_same _ _
  | .expr_red type .nil, b, a, b2, a2, h => by
    cases type <;> simp only [process, Option.some.injEq, Prod.mk.injEq, true_and] at h
    · simp at h
    · obtain ⟨rfl, rfl⟩ := h; exact slotsGrow_same _ _
    · obtain ⟨rfl, rfl⟩ := h; exact slotsGrow_same _ _
  | .expr_red type (.cons elt .nil), b, a, b2, a2, h => by
    simp only [process] at h
    rw [rewrap_eq] at h
    exact process_slots scop elt b a b2 a2 h
  | .expr_red type (.cons elt (.cons e2 r2)), b, a, b2, a2, h => by
    cases type with
    | clast_red_min =>
      simp only [process, Option.some.injEq, Prod.mk.injEq, true_and] at h
      obtain ⟨rfl, rfl⟩ := h; exact slotsGrow_same _ _
    | clast_red_max =>
      simp only [process, Option.some.injEq, Prod.mk.injEq, true_and] at h
      obtain ⟨rfl, rfl⟩ := h; exact slotsGrow_same _ _
    | clast_red_sum =>
      simp only [process] at h
      split at h
      · cases h1 : process scop elt b a with
        | none => simp [h1] at h
        | some p =>
          obtain ⟨r1, b1, a1⟩ := p
          cases r1 with
          | failure => simp [h1] at h
          | success =>
            simp only [h1] at h
            rw [rewrap_eq] at h
            obtain ⟨d1, l1, i1, o1⟩ := process_slots scop elt b a b1 a1 h1
            obtain ⟨⟨d2, l2, i2, o2⟩, k2⟩ :=
              sumLoop_slots scop (.cons e2 r2) b1 a1 none b2 a2 h
            refine ⟨d2.trans d1, le_trans l1 l2, ?_, ?_⟩
            · intro x hx
              rcases i2 x hx with hx1 | ⟨hx2, hx3⟩
              · simp only [slotsOf, Option.map_none', Option.getD_none, List.append_nil] at hx1
                rcases i1 x hx1 with hx4 | ⟨hx5, hx6⟩
                · exact Or.inl hx4
                · exact Or.inr ⟨hx5, by omega⟩
              · exact Or.inr ⟨by omega, hx3⟩
            · intro x h1x h2x
              by_cases hx : x < b1.symbolNames.length
              · exact k2 x (o1 x h1x hx)
              · exact o2 x (by omega) h2x
      · simp at h
theorem sumLoop_slots (scop : OslScop) :
    ∀ (rest : clast_elts) (b : AffineExprBuilder) (acc cur : Option AffineExpr)
      (b2 : AffineExprBuilder) (a2 : Option AffineExpr),
      sumLoop scop rest b acc cur = some (.success, b2, a2) →
      SlotsGrow b b2 (slotsOf acc ++ slotsOf cur) (slotsOf a2) ∧
        ∀ x ∈ slotsOf acc, x ∈ slotsOf a2
  | .nil, b, acc, cur, b2, a2, h => by
    simp only [sumLoop, Option.some.injEq, Prod.mk.injEq, true_and] at h
    obtain ⟨rfl, rfl⟩ := h
    refine ⟨⟨rfl, le_refl _, fun x hx => Or.inl (by simp [hx]), ?_⟩, fun x hx => hx⟩
    intro x h1 h2
    omega
  | .cons elt rest, b, acc, cur, b2, a2, h => by
    simp only [sumLoop] at h
    split at h
    · cases h1 : process scop elt b cur with
      | none => simp [h1] at h
      | some p =>
        obtain ⟨r1, b1, cur1⟩ := p
        cases r1 with
        | failure => simp [h1] at h
        | success =>
          simp only [h1] at h
          cases hplus : AffineExpr.plus acc cur1 with
          | none => simp [hplus] at h
          | some sum =>
            simp only [hplus] at h
            obtain ⟨d1, l1, i1, o1⟩ := process_slots scop elt b cur b1 cur1 h1
            obtain ⟨⟨d2, l2, i2, o2⟩, k2⟩ := sumLoop_slots scop rest b1 (some sum) cur1 b2 a2 h
            have hsum : ∀ x, x ∈ slotsOf (some sum) ↔ x ∈ slotsOf acc ∨ x ∈ slotsOf cur1 := by
              intro x
              cases acc with
              | none => simp [AffineExpr.plus] at hplus
              | some ea =>
                cases cur1 with
                | none => simp [AffineExpr.plus] at hplus
                | some ec =>
                  simp only [AffineExpr.plus, Option.some.injEq] at hplus
                  subst hplus
                  simp [slotsOf, AffineExpr.symbols]
            refine ⟨⟨d2.trans d1, le_trans l1 l2, ?_, ?_⟩, ?_⟩
            · intro x hx
              rcases i2 x hx with hx1 | ⟨hx2, hx3⟩
              · have hx1b : x ∈ slotsOf (some sum) ∨ x ∈ slotsOf cur1 := by
                  simpa [List.mem_append] using hx1
                have hx1c : x ∈ slotsOf acc ∨ x ∈ slotsOf cur1 := by
                  rcases hx1b with e | e
                  · exact (hsum x).mp e
                  · exact Or.inr e
                rcases hx1c with e | e
                · exact Or.inl (by simp [e])
                · rcases i1 x e with e2 | ⟨e3, e4⟩
                  · exact Or.inl (by simp [e2])
                  · exact Or.inr ⟨e3, by omega⟩
              · exact Or.inr ⟨by omega, hx3⟩
            · intro x h1x h2x
              by_cases hx : x < b1.symbolNames.length
              · exact k2 x ((hsum x).mpr (Or.inr (o1 x h1x hx)))
              · exact o2 x (by omega) h2x
            · intro x hx
              exact k2 x ((hsum x).mpr (Or.inl hx))
    · simp at h
end

end AffineExprBuilder
end Polymer

namespace Polymer
namespace Importer

theorem symbolArgsLoop_keeps (entry : Nat) :
    ∀ (names : List StringRef) (s : Importer) (operands : List Value) (n : StringRef)
      (v : Value), s.symNameToArg.lookup n = some v →
      (symbolArgsLoop entry names s operands).1.symNameToArg.lookup n = some v := by
  intro names
  induction names with
  | nil => intro s operands n v h; exact h
  | cons symName rest ih =>
    intro s operands n v h
    simp only [symbolArgsLoop]
    split
    · exact ih _ _ n v h
    · rename_i hnone
      apply ih
      have hne : n ≠ symName := by
        intro e
        subst e
        have hnone2 : s.symNameToArg.lookup n = none := hnone
        rw [hnone2] at h
        exact absurd h (by simp)
      have hb : (n == symName) = false := by simpa using hne
      simp only [List.lookup_cons, hb]
      exact h

theorem symbolArgsLoop_operands (entry : Nat) :
    ∀ (names : List StringRef) (s : Importer) (operands : List Value),
      ∃ vals, (symbolArgsLoop entry names s operands).2 = operands ++ vals ∧
        List.Forall₂
          (fun n v => (symbolArgsLoop entry names s operands).1.symNameToArg.lookup n = some v)
          names vals := by
  intro names
  induction names with
  | nil => intro s operands; exact ⟨[], by simp [symbolArgsLoop], List.Forall₂.nil⟩
  | cons symName rest ih =>
    intro s operands
    simp only [symbolArgsLoop]
    split
    · rename_i val hsome
      obtain ⟨vals, h1, h2⟩ := ih (s.addArgument entry MLIRType.index).2 (operands ++ [val])
      refine ⟨val :: vals, by rw [h1]; simp, List.Forall₂.cons ?_ h2⟩
      exact symbolArgsLoop_keeps entry rest _ _ symName val hsome
    · obtain ⟨vals, h1, h2⟩ := ih
        { (s.addArgument entry MLIRType.index).2 with
          symNameToArg := (symName, (s.addArgument entry MLIRType.index).1) ::
            (s.addArgument entry MLIRType.index).2.symNameToArg }
        (operands ++ [(s.addArgument entry MLIRType.index).1])
      refine ⟨(s.addArgument entry MLIRType.index).1 :: vals, by rw [h1]; simp,
        List.Forall₂.cons ?_ h2⟩
      apply symbolArgsLoop_keeps
      simp [List.lookup_cons]

/-- C20: a name node visited by the builder, repeated or not, is appended to the
symbol names and built as the symbol slot whose number is the number of names
appended before it.  When `getAffineLoopBound` succeeds on a bound expression,
the builder has succeeded with a built expression whose symbol slots are exactly
the numbers below `k`, the length of the list of symbol names; the map has no
dimension slot and `k` symbol slots; and the operand list has the length `k`,
operand `j` being the value that `symNameToArg` binds to the name `j` of the
list. -/
theorem getAffineLoopBound_symbol_slots (scop : OslScop) (e : clast_expr) (s s2 : Importer)
    (operands2 : List Value) (affMap2 : Option AffineMap)
    (h : getAffineLoopBound scop e [] none s = some (.success, s2, operands2, affMap2)) :
    (∀ (n : StringRef) (b : AffineExprBuilder) (a : Option AffineExpr),
      scop.isSymbol n = true →
      AffineExprBuilder.process scop (.expr_name n) b a =
        some (.success, { b with symbolNames := b.symbolNames ++ [n] },
          some (AffineExpr.symbol b.symbolNames.length))) ∧
    ∃ builder boundExpr,
      AffineExprBuilder.process scop e AffineExprBuilder.reset none =
        some (.success, builder, some boundExpr) ∧
      (∀ j, j ∈ boundExpr.symbols ↔ j < builder.symbolNames.length) ∧
      affMap2 = some { numDims := 0, numSymbols := builder.symbolNames.length,
                       result := boundExpr } ∧
      operands2.length = builder.symbolNames.length ∧
      List.Forall₂ (fun n v => s2.symNameToArg.lookup n = some v)
        builder.symbolNames operands2 := by
  constructor
  · intro n b a hn
    simp only [AffineExprBuilder.process, AffineExprBuilder.process_name, hn, if_true]
  · unfold getAffineLoopBound at h
    cases hp : AffineExprBuilder.process scop e AffineExprBuilder.reset none with
    | none => simp [hp] at h
    | some p =>
      obtain ⟨r, builder, boundExpr⟩ := p
      cases r with
      | failure => simp [hp] at h
      | success =>
        simp only [hp] at h
        cases he : s.entryBlock with
        | none => simp [he] at h
        | some entry =>
          simp only [he] at h
          cases boundExpr with
          | none => simp at h
          | some be =>
            simp only [Option.some.injEq, Prod.mk.injEq, true_and] at h
            obtain ⟨rfl, rfl, rfl⟩ := h
            obtain ⟨d, -, i1, o1⟩ := AffineExprBuilder.process_slots scop e _ _ _ _ hp
            obtain ⟨vals, hv1, hv2⟩ := symbolArgsLoop_operands entry builder.symbolNames s []
            simp only [List.nil_append] at hv1
            refine ⟨builder, be, rfl, ?_, ?_, ?_, ?_⟩
            · intro j
              constructor
              · intro hj
                have := i1 j (by simpa [slotsOf] using hj)
                rcases this with e1 | ⟨-, e2⟩
                · simp [slotsOf] at e1
                · exact e2
              · intro hj
                have := o1 j (by simp [AffineExprBuilder.reset]) hj
                simpa [slotsOf] using this
            · have hd : builder.dimNames = [] := d
              rw [hd]; rfl
            · rw [hv1]; exact hv2.length_eq.symm
            · rw [hv1]; exact hv2

end Importer
end Polymer

namespace Polymer
open Importer Examples

/-- Witness for C19: the reduction `min(3, 5)`. -/
theorem process_reduction_not_lowered_witness :
    AffineExprBuilder.process (scopOf [] [])
        (.expr_red .clast_red_min (.cons (constant 3) (.cons (constant 5) .nil)))
        AffineExprBuilder.reset none =
      some (.success, AffineExprBuilder.reset, none) :=
  (process_reduction_not_lowered (scopOf [] []) .clast_red_min
    (.cons (constant 3) (.cons (constant 5) .nil)) AffineExprBuilder.reset none).1
    (by decide) (by decide)

/-- Witness for C20: the bound `n + n` after the root. -/
theorem getAffineLoopBound_symbol_slots_witness :
    ∃ builder boundExpr,
      AffineExprBuilder.process (scopOf [] ["n"]) doubledName AffineExprBuilder.reset none =
        some (.success, builder, some boundExpr) ∧
      (∀ j, j ∈ boundExpr.symbols ↔ j < builder.symbolNames.length) ∧
      (boundOutcome (scopOf [] ["n"]) doubledName rootState).2.2.2 =
        some { numDims := 0, numSymbols := builder.symbolNames.length,
               result := boundExpr } ∧
      (boundOutcome (scopOf [] ["n"]) doubledName rootState).2.2.1.length =
        builder.symbolNames.length ∧
      List.Forall₂
        (fun n v =>
          (boundOutcome (scopOf [] ["n"]) doubledName rootState).2.1.symNameToArg.lookup n =
            some v)
        builder.symbolNames (boundOutcome (scopOf [] ["n"]) doubledName rootState).2.2.1 :=
  (getAffineLoopBound_symbol_slots (scopOf [] ["n"]) doubledName rootState
    (boundOutcome (scopOf [] ["n"]) doubledName rootState).2.1
    (boundOutcome (scopOf [] ["n"]) doubledName rootState).2.2.1
    (boundOutcome (scopOf [] ["n"]) doubledName rootState).2.2.2 (by decide)).2

end Polymer

namespace Polymer
open Importer Examples

/-- C21 (defect of the code): the body of the loop over `i` holds the statements
`S0(A0, i)` and `S1(A0, i, i)`.  The first binds `A0` to a new argument of `main`
of rank 1.  The import succeeds; the callee `S1` (operation 7) declares a buffer
of rank 2 at position 0, and the call of `S1` (operation 8) passes there the
argument bound to `A0`, whose type has rank 1.  The same happens inside the one
statement `S0(A0, A0)`: the call (operation 4) passes the argument of rank 1 at
position 1, where the callee (operation 3) declares rank 0. -/
theorem processStmt_user_reused_memref_rank_mismatch :
    (run (scopOf ["S0(A0, i)", "S1(A0, i, i)"] [])
      (.stmt_root (loop (constant 0) (constant 9)
        (.stmt_user 1 (.stmt_user 2 .null)) .null))).map Prod.fst = some .success ∧
    (run (scopOf ["S0(A0, i)", "S1(A0, i, i)"] [])
      (.stmt_root (loop (constant 0) (constant 9)
        (.stmt_user 1 (.stmt_user 2 .null)) .null))).map (fun p => p.2.ops[8]?) =
      some (some (.CallOp "S1".toList
        [Value.blockArgument 1 0, Value.blockArgument 2 0, Value.blockArgument 2 0] [])) ∧
    (run (scopOf ["S0(A0, i)", "S1(A0, i, i)"] [])
      (.stmt_root (loop (constant 0) (constant 9)
        (.stmt_user 1 (.stmt_user 2 .null)) .null))).map (fun p => p.2.callOperandTypes 8) =
      some (some [some (MLIRType.memref [-1]), some MLIRType.index, some MLIRType.index]) ∧
    (run (scopOf ["S0(A0, i)", "S1(A0, i, i)"] [])
      (.stmt_root (loop (constant 0) (constant 9)
        (.stmt_user 1 (.stmt_user 2 .null)) .null))).map (fun p => p.2.declaredInputs 7) =
      some (some [some (MLIRType.memref [-1, -1]), some MLIRType.index,
        some MLIRType.index]) ∧
    (run (scopOf ["S0(A0, A0)"] []) (.stmt_root (.stmt_user 1 .null))).map Prod.fst = some .success ∧
    (run (scopOf ["S0(A0, A0)"] []) (.stmt_root (.stmt_user 1 .null))).map (fun p => p.2.ops[4]?) =
      some (some (.CallOp "S0".toList [Value.blockArgument 1 0, Value.blockArgument 1 0] [])) ∧
    (run (scopOf ["S0(A0, A0)"] []) (.stmt_root (.stmt_user 1 .null))).map (fun p => p.2.callOperandTypes 4) =
      some (some [some (MLIRType.memref [-1]), some (MLIRType.memref [-1])]) ∧
    (run (scopOf ["S0(A0, A0)"] []) (.stmt_root (.stmt_user 1 .null))).map (fun p => p.2.declaredInputs 3) =
      some (some [some (MLIRType.memref [-1]), some (MLIRType.memref [])]) := by
  decide

end Polymer

namespace Polymer
open Importer Examples

/-- C11 (defect of the code): the statement `S1(S0, j)` follows the root and the
statement `S0(A0)`.  Its argument `j` is neither a memory reference nor a
result reference and is bound neither in the symbol table nor in
`symNameToArg`, yet the statement does not return failure: the argument `S0` in
front of it is bound to the call of `S0`, which has no result, and taking
result 0 of that call is undefined, so the statement and the whole import have
no defined outcome.  With the arguments in the other order, `S1(j, S0)`, the
statement does return failure. -/
theorem processStmt_user_unresolved_name_after_result_argument :
    processStmt_user (scopOf ["S0(A0)", "S1(S0, j)"] []) 1 rootState =
      some (.success, firstStatementState (scopOf ["S0(A0)", "S1(S0, j)"] [])) ∧
    (parseUserStmtBody "S1(S0, j)".toList [] []).2.2 = ["S0".toList, "j".toList] ∧
    isMemrefArg "j".toList = false ∧ isResultArg "j".toList = false ∧
    (firstStatementState (scopOf ["S0(A0)", "S1(S0, j)"] [])).symTable.getValue "j".toList =
      none ∧
    (firstStatementState (scopOf ["S0(A0)", "S1(S0, j)"] [])).symNameToArg.lookup "j".toList =
      none ∧
    processStmt_user (scopOf ["S0(A0)", "S1(S0, j)"] []) 2
      (firstStatementState (scopOf ["S0(A0)", "S1(S0, j)"] [])) = none ∧
    run (scopOf ["S0(A0)", "S1(S0, j)"] [])
      (.stmt_root (.stmt_user 1 (.stmt_user 2 .null))) = none ∧
    (processStmt_user (scopOf ["S0(A0)", "S1(j, S0)"] []) 2
      (firstStatementState (scopOf ["S0(A0)", "S1(j, S0)"] []))).map Prod.fst =
      some .failure ∧
    result (scopOf ["S0(A0)", "S1(j, S0)"] [])
      (.stmt_root (.stmt_user 1 (.stmt_user 2 .null))) = some .failure := by
  decide

end Polymer

namespace Polymer
open Importer Examples

end Polymer

namespace Polymer
open Importer Examples

end Polymer

namespace Polymer
namespace Importer

/-! ### No call has a result -/

theorem mem_updateOp (l : List Operation) (i : Nat) (f : Operation → Operation) (x : Operation)
    (h : x ∈ updateOp l i f) : x ∈ l ∨ ∃ o ∈ l, x = f o := by
  induction l generalizing i with
  | nil => simp [updateOp] at h
  | cons o os ih =>
    cases i with
    | zero =>
      simp only [updateOp, List.mem_cons] at h
      rcases h with rfl | h
      · exact Or.inr ⟨o, by simp, rfl⟩
      · exact Or.inl (by simp [h])
    | succ i =>
      simp only [updateOp, List.mem_cons] at h
      rcases h with rfl | h
      · exact Or.inl (by simp)
      · rcases ih i h with h1 | ⟨o2, ho2, rfl⟩
        · exact Or.inl (by simp [h1])
        · exact Or.inr ⟨o2, by simp [ho2], rfl⟩

theorem noResult_updateOp (l : List Operation) (i : Nat) (f : Operation → Operation)
    (hf : ∀ o, o.noResult = true → (f o).noResult = true)
    (h : ∀ op ∈ l, op.noResult = true) : ∀ op ∈ updateOp l i f, op.noResult = true := by
  intro op hop
  rcases mem_updateOp _ _ _ _ hop with h1 | ⟨o, ho, rfl⟩
  · exact h op h1
  · exact hf o (h o ho)

theorem noResult_append (l : List Operation) (op : Operation)
    (h : ∀ o ∈ l, o.noResult = true) (hop : op.noResult = true) :
    ∀ o ∈ l ++ [op], o.noResult = true := by
  intro o ho
  rcases List.mem_append.mp ho with h1 | h1
  · exact h o h1
  · rw [List.mem_singleton.mp h1]; exact hop

theorem resultArg_undefined (s : Importer) (arg : StringRef) (srcOp : Nat) (h : s.NoResults)
    (h1 : s.symTable.getOperation arg = some srcOp) : resultArg s arg = none := by
  simp only [resultArg, h1]
  cases h2 : s.ops[srcOp]? with
  | none => rfl
  | some op =>
    cases op with
    | CallOp callee operands resultTypes =>
      have hr : resultTypes = [] := by
        have := h _ (List.getElem?_mem h2)
        simpa [Operation.noResult] using this
      subst hr
      simp only []
      cases h3 : s.calleeMap.lookup callee with
      | none => rfl
      | some srcCallee =>
        simp only []
        cases h4 : s.ops[srcCallee]? with
        | none => rfl
        | some op2 => cases op2 <;> simp
    | _ => rfl

theorem callerArg_ops (numArgs entry i : Nat) (arg : StringRef) (s s2 : Importer)
    (r : LogicalResult) (v : Option Value) (h : s.NoResults)
    (hstep : callerArg numArgs entry i arg s = some (r, s2, v)) : s2.ops = s.ops := by
  unfold callerArg at hstep
  split at hstep
  · split at hstep
    · simp only [Option.some.injEq, Prod.mk.injEq] at hstep
      rw [← hstep.2.1]
    · simp only [Option.some.injEq, Prod.mk.injEq] at hstep
      rw [← hstep.2.1]
      rfl
  · split at hstep
    · cases h1 : s.symTable.getOperation arg with
      | none =>
        simp only [resultArg, h1, Option.some.injEq, Prod.mk.injEq] at hstep
        rw [← hstep.2.1]
      | some srcOp =>
        rw [resultArg_undefined s arg srcOp h h1] at hstep
        simp at hstep
    · split at hstep
      · simp only [Option.some.injEq, Prod.mk.injEq] at hstep
        rw [← hstep.2.1]
      · split at hstep <;>
        · simp only [Option.some.injEq, Prod.mk.injEq] at hstep
          rw [← hstep.2.1]

theorem callerArgsLoop_ops (numArgs entry : Nat) :
    ∀ (names : List StringRef) (i : Nat) (s : Importer) (acc : List Value)
      (r : LogicalResult) (s2 : Importer) (out : List Value), s.NoResults →
      callerArgsLoop numArgs entry i names s acc = some (r, s2, out) → s2.ops = s.ops := by
  intro names
  induction names with
  | nil =>
    intro i s acc r s2 out _ h
    simp only [callerArgsLoop, Option.some.injEq, Prod.mk.injEq] at h
    rw [← h.2.1]
  | cons name rest ih =>
    intro i s acc r s2 out hn h
    simp only [callerArgsLoop] at h
    split at h
    · exact absurd h (by simp)
    · rename_i s1 _ hstep
      simp only [Option.some.injEq, Prod.mk.injEq] at h
      rw [← h.2.1]
      exact callerArg_ops _ _ _ _ _ _ _ _ hn hstep
    · exact absurd h (by simp)
    · rename_i s1 val hstep
      have e1 := callerArg_ops _ _ _ _ _ _ _ _ hn hstep
      have hn1 : s1.NoResults := by
        intro op hop
        rw [e1] at hop
        exact hn op hop
      rw [ih _ _ _ _ _ _ hn1 h, e1]

theorem processStmt_user_noResults (scop : OslScop) (number : Int) (s s2 : Importer)
    (r : LogicalResult) (hn : s.NoResults)
    (h : processStmt_user scop number s = some (r, s2)) : s2.NoResults := by
  cases hstmt : scop.getStatement (number - 1) with
  | none =>
    simp only [processStmt_user, hstmt, Option.some.injEq, Prod.mk.injEq] at h
    rw [← h.2]; exact hn
  | some stmt =>
    cases htext : bodyText stmt with
    | none => simp [processStmt_user, hstmt, htext] at h
    | some text =>
      obtain ⟨callee, s1, entry, r3, s3, callerArgs, hd, -, hl, hcase⟩ :=
        processStmt_user_steps scop number s s2 r stmt text hstmt htext h
      obtain ⟨-, hops1, -⟩ := declareCallee_spec _ _ _ _ _ hd
      have hn1 : s1.NoResults := by
        intro op hop
        rw [hops1] at hop
        exact noResult_append _ _ hn (by rfl) op hop
      have e3 := callerArgsLoop_ops _ _ _ _ _ _ _ _ _ hn1 hl
      have hn3 : s3.NoResults := by
        intro op hop
        rw [e3] at hop
        exact hn1 op hop
      rcases hcase with ⟨-, -, rfl⟩ | ⟨-, he⟩
      · exact hn3
      · unfold emitCall at he
        cases hc : s3.ops[callee]? with
        | none => simp [hc] at he
        | some op =>
          cases op with
          | FuncOp name type body =>
            simp only [hc, Option.some.injEq, Prod.mk.injEq] at he
            have ht : type.results.isEmpty = true := hn3 _ (List.getElem?_mem hc)
            rw [← he.2]
            intro op hop
            exact noResult_append _ _ hn3 (by simpa [Operation.noResult] using ht) op hop
          | _ => simp [hc] at he

theorem symbolArgsLoop_ops (entry : Nat) :
    ∀ (names : List StringRef) (s : Importer) (operands : List Value),
      (symbolArgsLoop entry names s operands).1.ops = s.ops := by
  intro names
  induction names with
  | nil => intro s operands; rfl
  | cons symName rest ih =>
    intro s operands
    simp only [symbolArgsLoop]
    split
    · rw [ih]; rfl
    · rw [ih]; rfl

theorem getAffineLoopBound_ops (scop : OslScop) (expr : clast_expr)
    (operands : List Value) (affMap : Option AffineMap) (s s2 : Importer)
    (r : LogicalResult) (operands2 : List Value) (affMap2 : Option AffineMap)
    (h : getAffineLoopBound scop expr operands affMap s = some (r, s2, operands2, affMap2)) :
    s2.ops = s.ops := by
  unfold getAffineLoopBound at h
  split at h
  · simp at h
  · simp only [Option.some.injEq, Prod.mk.injEq] at h
    rw [← h.2.1]
  · split at h
    · simp at h
    · split at h
      · simp at h
      · simp only [Option.some.injEq, Prod.mk.injEq] at h
        rw [← h.2.1]
        exact symbolArgsLoop_ops _ _ _ _

theorem createFor_noResults (s : Importer) (iterator : StringRef) (lbOperands : List Value)
    (lbMap : AffineMap) (ubOperands : List Value) (ubMap : AffineMap) (stride : Int)
    (hn : s.NoResults) :
    (createFor s iterator lbOperands lbMap ubOperands ubMap stride).2.NoResults := by
  intro op hop
  simp only [createFor, create] at hop
  exact noResult_append _ _ (noResult_append _ _ hn (by rfl)) (by rfl) op hop

theorem setInsertionPointAfter_ops (s s2 : Importer) (op : Nat)
    (h : setInsertionPointAfter s op = some s2) : s2.ops = s.ops := by
  unfold setInsertionPointAfter at h
  split at h
  · simp at h
  · simp only [Option.some.injEq] at h
    rw [← h]

theorem processStmt_for_noResults (scop : OslScop) (iterator : StringRef)
    (LB UB : clast_expr) (stride : Int)
    (processBody : Importer → Option (LogicalResult × Importer))
    (hbody : ∀ s r s2, s.NoResults → processBody s = some (r, s2) → s2.NoResults)
    (s s2 : Importer) (r : LogicalResult) (hn : s.NoResults)
    (h : processStmt_for scop iterator LB UB stride processBody s = some (r, s2)) :
    s2.NoResults := by
  unfold processStmt_for at h
  split at h
  · simp at h
  · simp at h
  · cases h1 : getAffineLoopBound scop LB [] none s with
    | none => simp [h1] at h
    | some p1 =>
      obtain ⟨r1, s1, lbOperands, lbMap⟩ := p1
      have e1 := getAffineLoopBound_ops _ _ _ _ _ _ _ _ _ h1
      have hn1 : s1.NoResults := by
        intro op hop; rw [e1] at hop; exact hn op hop
      cases r1 with
      | failure =>
        simp only [h1, Option.some.injEq, Prod.mk.injEq] at h
        rw [← h.2]; exact hn1
      | success =>
        simp only [h1] at h
        cases h2 : getAffineLoopBound scop UB [] none s1 with
        | none => simp [h2] at h
        | some p2 =>
          obtain ⟨r2, s2b, ubOperands, ubMap⟩ := p2
          have e2 := getAffineLoopBound_ops _ _ _ _ _ _ _ _ _ h2
          have hn2 : s2b.NoResults := by
            intro op hop; rw [e2] at hop; exact hn1 op hop
          cases r2 with
          | failure =>
            simp only [h2, Option.some.injEq, Prod.mk.injEq] at h
            rw [← h.2]; exact hn2
          | success =>
            simp only [h2] at h
            split at h
            · simp only [Option.some.injEq, Prod.mk.injEq] at h
              rw [← h.2]; exact hn2
            · split at h
              · rename_i lbM ubM
                have hn3 := createFor_noResults s2b iterator lbOperands lbM ubOperands ubM
                  (getStride stride).2 hn2
                split at h
                · simp at h
                · rename_i r3 s3 hb
                  have hn4 := hbody _ _ _ hn3 hb
                  split at h
                  · simp at h
                  · rename_i s4 hs4
                    simp only [Option.some.injEq, Prod.mk.injEq] at h
                    rw [← h.2]
                    intro op hop
                    rw [setInsertionPointAfter_ops _ _ _ hs4] at hop
                    exact hn4 op hop
              · simp at h

theorem setBody_noResult (body : Nat) (o : Operation) (h : o.noResult = true) :
    (Operation.setBody body o).noResult = true := by
  cases o <;> simp_all [Operation.setBody, Operation.noResult]

theorem processStmt_root_noResults (s s2 : Importer) (r : LogicalResult) (hn : s.NoResults)
    (h : processStmt_root s = some (r, s2)) : s2.NoResults := by
  unfold processStmt_root at h
  split at h
  · simp at h
  · simp only [Option.some.injEq, Prod.mk.injEq] at h
    rw [← h.2]
    intro op hop
    simp only [create] at hop
    refine noResult_append _ _ ?_ (by rfl) op hop
    exact noResult_updateOp _ _ _ (setBody_noResult _) (noResult_append _ _ hn (by rfl))

theorem postUpdate_noResults (s s2 : Importer) (r : LogicalResult) (hn : s.NoResults)
    (h : postUpdate s = some (r, s2)) : s2.NoResults := by
  unfold postUpdate at h
  split at h
  · simp only [Option.some.injEq, Prod.mk.injEq] at h
    rw [← h.2]
    intro op hop
    refine noResult_updateOp _ _ _ ?_ hn op hop
    intro o _
    cases o <;> simp [Operation.setType, Operation.noResult] at *
    all_goals assumption
  · simp at h

theorem processStmtList_noResults (scop : OslScop) (list : clast_stmt) :
    ∀ (s s2 : Importer) (r : LogicalResult), s.NoResults →
      processStmtList scop list s = some (r, s2) → s2.NoResults := by
  induction list with
  | null =>
    intro s s2 r hn h
    simp only [processStmtList] at h
    exact postUpdate_noResults _ _ _ hn h
  | stmt_root next ih =>
    intro s s2 r hn h
    simp only [processStmtList] at h
    cases h1 : processStmt_root s with
    | none => simp [h1] at h
    | some p =>
      obtain ⟨r1, s1⟩ := p
      have hn1 := processStmt_root_noResults _ _ _ hn h1
      cases r1 with
      | failure =>
        simp only [h1, Option.some.injEq, Prod.mk.injEq] at h
        rw [← h.2]; exact hn1
      | success =>
        simp only [h1] at h
        exact ih _ _ _ hn1 h
  | stmt_ass next ih => intro s s2 r hn h; exact ih _ _ _ hn h
  | stmt_user number next ih =>
    intro s s2 r hn h
    simp only [processStmtList] at h
    cases h1 : processStmt_user scop number s with
    | none => simp [h1] at h
    | some p =>
      obtain ⟨r1, s1⟩ := p
      have hn1 := processStmt_user_noResults _ _ _ _ _ hn h1
      cases r1 with
      | failure =>
        simp only [h1, Option.some.injEq, Prod.mk.injEq] at h
        rw [← h.2]; exact hn1
      | success =>
        simp only [h1] at h
        exact ih _ _ _ hn1 h
  | stmt_for iterator LB UB stride body next ihb ihn =>
    intro s s2 r hn h
    simp only [processStmtList] at h
    cases h1 : processStmt_for scop iterator LB UB stride (processStmtList scop body) s with
    | none => simp [h1] at h
    | some p =>
      obtain ⟨r1, s1⟩ := p
      have hn1 := processStmt_for_noResults scop iterator LB UB stride _
        (fun s r s2 hn0 h0 => ihb s s2 r hn0 h0) s s1 r1 hn h1
      cases r1 with
      | failure =>
        simp only [h1, Option.some.injEq, Prod.mk.injEq] at h
        rw [← h.2]; exact hn1
      | success =>
        simp only [h1] at h
        exact ihn _ _ _ hn1 h
  | stmt_guard next ih => intro s s2 r hn h; exact ih _ _ _ hn h
  | stmt_block next ih => intro s s2 r hn h; exact ih _ _ _ hn h
  | stmt_other next ih => intro s s2 r hn h; exact ih _ _ _ hn h

theorem fresh_noResults : fresh.NoResults := by
  intro op hop
  simp only [fresh, init, List.mem_singleton] at hop
  rw [hop]
  rfl

/-- In every state that the import of a statement list with a new importer
returns, a result-reference argument whose source operation is found has no
defined outcome: the call bound to the name has no result 0. -/
theorem resultArg_undefined_after_import (scop : OslScop) (list : clast_stmt)
    (r : LogicalResult) (s : Importer) (arg : StringRef) (srcOp : Nat)
    (h : processStmtList scop list fresh = some (r, s))
    (h1 : s.symTable.getOperation arg = some srcOp) : resultArg s arg = none :=
  resultArg_undefined s arg srcOp (processStmtList_noResults scop list _ _ _ fresh_noResults h) h1

end Importer
end Polymer
